import Mathlib

/-!
Verification development for the Trails from Zero quest `._dt`
decompiler/compiler (`dt_quest.py`, class `QuestDTDecompiler`).

The binary format: a header table of `ENTRY_COUNT = 80` fixed records of
`ENTRY_SIZE = 28` bytes (1 counter byte, 11 reserved bytes, four 4-byte
little-endian pointers), followed by a body of null-terminated Shift-JIS
strings and 4-byte pointer arrays.

Shallow embedding conventions:
* byte buffers are `List Nat` (each element a byte value; Python `bytes`);
* text (Python `str`) is `List Char`;
* Python dict entries are modelled by the structure `QuestEntry`; a key
  absent from the dict is represented by the default that `dict.get`
  supplies (`0`, `[]`, empty text), which produces byte-identical output;
* fallible code returns `Except String`;
* in-place `bytearray` writes are modelled functionally by `writeBytes`.
-/

/-- Text, i.e. a Python `str`, as a list of characters. -/
abbrev Text := List Char

/-- `struct.unpack('<I', data[off:off+4])`: little-endian unsigned 32-bit
read.  Out-of-range bytes default to 0; the sources only read in bounds. -/
def readU32 (data : List Nat) (off : Nat) : Nat :=
  data.getD off 0 + 256 * data.getD (off + 1) 0 +
    65536 * data.getD (off + 2) 0 + 16777216 * data.getD (off + 3) 0

/-- The four little-endian bytes of a 32-bit value (`struct.pack('<I', n)`
for `n < 2^32`; the packing sites check the range and fail otherwise). -/
def u32le (n : Nat) : List Nat :=
  [n % 256, n / 256 % 256, n / 65536 % 256, n / 16777216 % 256]

/-- Functional model of an in-place write of `bs` into buffer `buf` at
offset `off` (`bytearray` item assignment / `struct.pack_into`).  Callers
check `off + bs.length ≤ buf.length` before writing. -/
def writeBytes (buf : List Nat) (off : Nat) (bs : List Nat) : List Nat :=
  buf.take off ++ bs ++ buf.drop (off + bs.length)

/-! ## Text transcoder -/

/-- `INCOMPATIBLE_CHARS_REPLACEMENTS`: the exact-match substitution
dictionary for characters incompatible with Shift-JIS. -/
def incompatibleReplacement (c : Char) : Option Text :=
  if c = '­' then some [] else              -- soft hyphen: removed
  if c = '‑' then some ['-'] else           -- non-breaking hyphen
  if c = '—' then some ['-'] else           -- em dash
  if c = '–' then some ['-'] else           -- en dash
  if c = '―' then some ['-'] else           -- horizontal bar
  if c = '‘' then some ['\''] else          -- left single quote
  if c = '’' then some ['\''] else          -- right single quote
  if c = '“' then some ['"'] else           -- left double quote
  if c = '”' then some ['"'] else           -- right double quote
  if c = '…' then some ['.', '.', '.'] else -- ellipsis
  if c = '•' then some ['*'] else           -- bullet
  if c = '′' then some ['\''] else          -- prime
  if c = '″' then some ['"'] else           -- double prime
  if c = ' ' then some [' '] else           -- non-breaking space
  if c = '«' then some ['"'] else           -- left angle quote
  if c = '»' then some ['"'] else           -- right angle quote
  if c = '©' then some ['(', 'c', ')'] else -- copyright
  if c = '®' then some ['(', 'r', ')'] else -- registered
  if c = '™' then some ['(', 't', 'm', ')'] else -- trademark
  if c = '€' then some ['E', 'U', 'R'] else -- euro
  if c = '£' then some ['G', 'B', 'P'] else -- pound
  if c = '¥' then some ['J', 'P', 'Y'] else -- yen
  if c = '−' then some ['-'] else           -- minus sign
  if c = '̆' then some [] else              -- combining breve
  if c = '̈' then some [] else              -- combining diaeresis
  if c = '́' then some [] else              -- combining acute
  if c = '̀' then some [] else              -- combining grave
  if c = '̂' then some [] else              -- combining circumflex
  if c = '̃' then some [] else              -- combining tilde
  if c = '̄' then some [] else              -- combining macron
  if c = '̇' then some [] else              -- combining dot above
  if c = '̊' then some [] else              -- combining ring above
  if c = '̋' then some [] else              -- combining double acute
  if c = '̌' then some [] else              -- combining caron
  if c = '̧' then some [] else              -- combining cedilla
  if c = '̨' then some [] else              -- combining ogonek
  if c = '̣' then some [] else              -- combining dot below
  if c = '№' then some ['#'] else           -- numero sign
  if c = 'ү' then some ['у'] else      -- Cyrillic straight u
  if c = '‌' then some [] else              -- zero width non-joiner
  if c = '‍' then some [] else              -- zero width joiner
  if c = '﻿' then some [] else              -- BOM
  if c = '∕' then some ['/'] else           -- division slash
  if c = '⁄' then some ['/'] else           -- fraction slash
  if c = '·' then some ['.'] else           -- middle dot
  if c = '˙' then some ['.'] else           -- dot above
  if c = '‚' then some [','] else           -- low-9 quote
  if c = '„' then some ['"'] else           -- double low-9 quote
  if c = '‹' then some ['<'] else           -- single left angle quote
  if c = '›' then some ['>'] else           -- single right angle quote
  if c = '°' then some ['°'] else      -- degree sign (kept)
  if c = '÷' then some ['/'] else           -- division sign
  if c = '×' then some ['x'] else           -- multiplication sign
  if c = 'μ' then some ['μ'] else      -- micro sign (kept)
  none

/-- `get_replacement_for_extended_char`: range-based fallback replacements
for extended Cyrillic and Latin characters. -/
def get_replacement_for_extended_char (c : Char) : Option Text :=
  let n := c.toNat
  if c = 'ү' then some ['у'] else
  if c = 'Ё' then some ['Е'] else
  if c = 'ё' then some ['е'] else
  if c = 'І' then some ['И'] else
  if c = 'і' then some ['и'] else
  if c = 'Ї' then some ['И'] else
  if c = 'ї' then some ['и'] else
  if c = 'Є' then some ['Э'] else
  if c = 'є' then some ['э'] else
  if c = 'Ґ' then some ['Г'] else
  if c = 'ґ' then some ['г'] else
  if c = 'Ў' then some ['У'] else
  if c = 'ў' then some ['у'] else
  if c = 'Ә' then some ['Е'] else
  if c = 'ә' then some ['е'] else
  if c = 'Ң' then some ['Н'] else
  if c = 'ң' then some ['н'] else
  if c = 'Ғ' then some ['Г'] else
  if c = 'ғ' then some ['г'] else
  if c = 'Ұ' then some ['У'] else
  if c = 'ұ' then some ['у'] else
  if c = 'Ү' then some ['У'] else
  if c = 'Қ' then some ['К'] else
  if c = 'қ' then some ['к'] else
  if c = 'Ө' then some ['О'] else
  if c = 'ө' then some ['о'] else
  if c = 'Һ' then some ['Х'] else
  if c = 'һ' then some ['х'] else
  if 0x00C0 ≤ n ∧ n ≤ 0x00C5 then some ['A'] else
  if 0x00E0 ≤ n ∧ n ≤ 0x00E5 then some ['a'] else
  if c = 'Æ' then some ['A', 'E'] else
  if c = 'æ' then some ['a', 'e'] else
  if c = 'Ç' then some ['C'] else
  if c = 'ç' then some ['c'] else
  if 0x00C8 ≤ n ∧ n ≤ 0x00CB then some ['E'] else
  if 0x00E8 ≤ n ∧ n ≤ 0x00EB then some ['e'] else
  if 0x00CC ≤ n ∧ n ≤ 0x00CF then some ['I'] else
  if 0x00EC ≤ n ∧ n ≤ 0x00EF then some ['i'] else
  if c = 'Ð' then some ['D'] else
  if c = 'ð' then some ['d'] else
  if c = 'Ñ' then some ['N'] else
  if c = 'ñ' then some ['n'] else
  if (0x00D2 ≤ n ∧ n ≤ 0x00D6) ∨ c = 'Ø' then some ['O'] else
  if (0x00F2 ≤ n ∧ n ≤ 0x00F6) ∨ c = 'ø' then some ['o'] else
  if 0x00D9 ≤ n ∧ n ≤ 0x00DC then some ['U'] else
  if 0x00F9 ≤ n ∧ n ≤ 0x00FC then some ['u'] else
  if c = 'Ý' then some ['Y'] else
  if c = 'ý' then some ['y'] else
  if c = 'Þ' then some ['T', 'h'] else
  if c = 'þ' then some ['t', 'h'] else
  if c = 'ß' then some ['s', 's'] else
  none

/-- `replace_incompatible_chars`: per character, consult the exact-match
dictionary first, then the extended fallback, else keep the character. -/
def replace_incompatible_chars : Text → Text
  | [] => []
  | c :: rest =>
    (match incompatibleReplacement c with
     | some r => r
     | none =>
       match get_replacement_for_extended_char c with
       | some r => r
       | none => [c]) ++ replace_incompatible_chars rest

/-- The sentinel token `<LINE>` used in document form for the control
byte `0x01`. -/
def lineToken : Text := ['<', 'L', 'I', 'N', 'E', '>']

/-- `text.replace('<LINE>', '\x01')`: left-to-right, non-overlapping
replacement of the sentinel token by the control character. -/
def replaceLineToken : Text → Text
  | '<' :: 'L' :: 'I' :: 'N' :: 'E' :: '>' :: rest => '\x01' :: replaceLineToken rest
  | c :: rest => c :: replaceLineToken rest
  | [] => []

/-- `text.replace('\u0001', '<LINE>')`: restores the sentinel token on
decode (single-character needle, hence a per-character expansion). -/
def lineRestore : Text → Text
  | [] => []
  | c :: rest => (if c = '\x01' then lineToken else [c]) ++ lineRestore rest

/-- Modelled from the spec: the legacy Shift-JIS codec itself is Python
stdlib code, not part of this repository.  The spec fixes only that the
encoding is ASCII-compatible ("the one legacy 2-byte-aware CJK encoding")
and that `errors='replace'` turns anything unencodable into the generic
replacement byte `?`.  The model encodes the single-byte ASCII plane
exactly and conservatively treats every character outside it as
unencodable. -/
def sjisEncodeChar (c : Char) : List Nat :=
  if c.toNat < 128 then [c.toNat] else [63]

/-- `text.encode('shift_jis', errors='replace')` over the modelled codec. -/
def sjisEncodeText : Text → List Nat
  | [] => []
  | c :: rest => sjisEncodeChar c ++ sjisEncodeText rest

/-- Modelled from the spec: byte-wise decoding for the modelled codec
(`bytes.decode('shift_jis', errors='replace')`); bytes in the ASCII plane
decode to themselves, anything else to the replacement character. -/
def sjisDecodeByte (b : Nat) : Char :=
  if b < 128 then Char.ofNat b else '�'

/-- `bytes.decode('shift_jis', errors='replace')` over the modelled codec. -/
def sjisDecode (bs : List Nat) : Text :=
  bs.map sjisDecodeByte

/-- `encode_sjis_with_null`: empty text encodes as the lone terminator;
otherwise restore the control byte from `<LINE>`, substitute incompatible
characters, encode, and append the terminator.  (The `?`-detection block
in the source only prints a warning and does not change the output.) -/
def encode_sjis_with_null (text : Text) : List Nat :=
  if text = [] then [0]
  else
    sjisEncodeText (replace_incompatible_chars (replaceLineToken text)) ++ [0]

/-- `read_cstring_sjis`: a pointer of 0 or out of bounds yields empty
text; otherwise the bytes up to the first zero (or end of buffer) are
decoded and the control byte is replaced by `<LINE>`. -/
def read_cstring_sjis (data : List Nat) (ptr : Nat) : Text :=
  if ptr = 0 ∨ data.length ≤ ptr then []
  else lineRestore (sjisDecode ((data.drop ptr).takeWhile (· ≠ 0)))

/-! ## Data model -/

/-- `ENTRY_COUNT`: the fixed number of header records. -/
def ENTRY_COUNT : Nat := 80

/-- `ENTRY_SIZE`: bytes per header record (1 + 11 + 4·4). -/
def ENTRY_SIZE : Nat := 28

/-- One header record as read in step 1 of `parse_dt_file`. -/
structure DTHeader where
  idx : Nat
  counter : Nat
  reserved : List Nat
  name_ptr : Nat
  client_ptr : Nat
  description_ptr : Nat
  progress_ptr : Nat
deriving DecidableEq, Repr, Inhabited

/-- One entry of the quest document.  `pointers` is the diagnostic block
(the raw pointer values rendered as hex strings in the JSON; the
rendering is injective below 2^32, so the numbers themselves are kept).
The derived `reserved_hex` rendering of `reserved` is not modelled
separately. -/
structure QuestEntry where
  index : Nat
  counter : Nat
  reserved : List Nat
  name : Text
  client : Text
  description : Text
  progress : List Text
  pointers : Nat × Nat × Nat × Nat
deriving DecidableEq, Repr, Inhabited

/-- An entry with every `dict.get` default (used as `getD` fallback). -/
def qDefault : QuestEntry :=
  { index := 0, counter := 0, reserved := [], name := [], client := [],
    description := [], progress := [], pointers := (0, 0, 0, 0) }

/-! ## Decoder (`parse_dt_file`) -/

/-- Step 1 of `parse_dt_file`: read the header record at index `idx`. -/
def readHeader (data : List Nat) (idx : Nat) : DTHeader :=
  let off := idx * ENTRY_SIZE
  { idx := idx
    counter := data.getD off 0
    reserved := (data.drop (off + 1)).take 11
    name_ptr := readU32 data (off + 12)
    client_ptr := readU32 data (off + 16)
    description_ptr := readU32 data (off + 20)
    progress_ptr := readU32 data (off + 24) }

/-- The inner loop of step 3 of `parse_dt_file`: read `count` 4-byte
pointer slots starting at slot `j`, stopping (`break`) at the first slot
that does not fit in the buffer; each slot is dereferenced as a string. -/
def readProgressSlots (data : List Nat) (thisPtr : Nat) : Nat → Nat → List Text
  | 0, _ => []
  | count + 1, j =>
    if thisPtr + j * 4 + 4 ≤ data.length then
      read_cstring_sjis data (readU32 data (thisPtr + j * 4)) ::
        readProgressSlots data thisPtr count (j + 1)
    else []

/-- Step 3 of `parse_dt_file` for record `i`: infer the byte extent of
the progress pointer-array from the next record's progress pointer, or
fall back to the remainder of the file; floor-divide by 4 to get the slot
count.  (`max(0, ...)` in the source is the identity: every branch is
non-negative.) -/
def parseProgress (data : List Nat) (headers : List DTHeader) (i : Nat) : List Text :=
  let thisPtr := (headers.getD i default).progress_ptr
  if thisPtr = 0 then []
  else
    let sizeBytes :=
      if i < ENTRY_COUNT - 1 then
        let nextPtr := (headers.getD (i + 1) default).progress_ptr
        if thisPtr < nextPtr ∧ nextPtr ≤ data.length then nextPtr - thisPtr
        else if thisPtr < data.length then data.length - thisPtr else 0
      else
        if thisPtr < data.length then data.length - thisPtr else 0
    readProgressSlots data thisPtr (sizeBytes / 4) 0

/-- `parse_dt_file` on an in-memory buffer: fails when the buffer cannot
hold the header table, then reads the 80 headers, resolves the three
string pointers of every entry, and reads the progress arrays. -/
def parse_dt_file (data : List Nat) : Except String (List QuestEntry) :=
  if data.length < ENTRY_COUNT * ENTRY_SIZE then
    .error "File too small for header table"
  else
    let headers := (List.range ENTRY_COUNT).map (readHeader data)
    .ok <| (List.range ENTRY_COUNT).map fun i =>
      let h := headers.getD i default
      { index := h.idx
        counter := h.counter
        reserved := h.reserved
        name := read_cstring_sjis data h.name_ptr
        client := read_cstring_sjis data h.client_ptr
        description := read_cstring_sjis data h.description_ptr
        progress := parseProgress data headers i
        pointers := (h.name_ptr, h.client_ptr, h.description_ptr, h.progress_ptr) }

/-! ## Encoder (`compile_to_dt`) -/

/-- Phase 1 of `compile_to_dt`: allocate the encoded `name`, `client` and
`description` of each entry in order, starting at `cursor`.  Returns the
final cursor, the allocated parts in order, and per entry the triple of
allocated offsets (`_name_ptr`, `_client_ptr`, `_desc_ptr`). -/
def allocStrings : Nat → List QuestEntry → Nat × List (List Nat) × List (Nat × Nat × Nat)
  | cursor, [] => (cursor, [], [])
  | cursor, e :: rest =>
    let n := encode_sjis_with_null e.name
    let c := encode_sjis_with_null e.client
    let d := encode_sjis_with_null e.description
    let r := allocStrings (cursor + n.length + c.length + d.length) rest
    (r.1, n :: c :: d :: r.2.1,
      (cursor, cursor + n.length, cursor + n.length + c.length) :: r.2.2)

/-- Phase 2, inner loop: allocate each progress string in order,
returning the final cursor, the parts, and the offset of each string. -/
def allocTexts : Nat → List Text → Nat × List (List Nat) × List Nat
  | cursor, [] => (cursor, [], [])
  | cursor, t :: rest =>
    let b := encode_sjis_with_null t
    let r := allocTexts (cursor + b.length) rest
    (r.1, b :: r.2.1, cursor :: r.2.2)

/-- `struct.pack('<I', n)`: fails (struct.error) for values outside
32 bits. -/
def pack32 (n : Nat) : Except String (List Nat) :=
  if n < 4294967296 then .ok (u32le n) else .error "struct.error: argument out of range"

/-- Phase 2 of `compile_to_dt`: per entry, progress pointer 0 when the
progress sequence is empty; otherwise allocate the progress strings, then
the pointer-array blob, whose offset becomes the entry's progress
pointer. -/
def allocProgress : Nat → List QuestEntry → Except String (Nat × List (List Nat) × List Nat)
  | cursor, [] => .ok (cursor, [], [])
  | cursor, e :: rest =>
    if e.progress = [] then do
      let r ← allocProgress cursor rest
      .ok (r.1, r.2.1, 0 :: r.2.2)
    else do
      let s := allocTexts cursor e.progress
      let arr ← (s.2.2.mapM pack32).map List.flatten
      let r ← allocProgress (s.1 + arr.length) rest
      .ok (r.1, s.2.1 ++ arr :: r.2.1, s.1 :: r.2.2)

/-- The 28 bytes that `compile_to_dt` writes into the header for one
entry: the counter masked to a byte (`& 0xFF`, i.e. `% 256`), the
reserved list zero-padded/truncated to 11 bytes, then the four pointers
little-endian. -/
def headerRecordBytes (e : QuestEntry) (np cp dp pp : Nat) : List Nat :=
  (e.counter % 256) :: (List.range 11).map (fun i => e.reserved.getD i 0) ++
    u32le np ++ u32le cp ++ u32le dp ++ u32le pp

/-- The header-write loop of `compile_to_dt` for one entry.  Mirrors the
runtime failures of the source: writing past the 2240-byte `bytearray`
raises, assigning a non-byte reserved value raises, and `pack_into`
raises on a pointer outside 32 bits. -/
def writeHeaderEntry (buf : List Nat) (e : QuestEntry) (np cp dp pp : Nat) :
    Except String (List Nat) :=
  let off := e.index * ENTRY_SIZE
  if ENTRY_COUNT * ENTRY_SIZE < off + ENTRY_SIZE then
    .error "IndexError: bytearray index out of range"
  else if ¬ (List.range 11).all (fun i => e.reserved.getD i 0 < 256) then
    .error "ValueError: byte must be in range(0, 256)"
  else if ¬ (np < 4294967296 ∧ cp < 4294967296 ∧ dp < 4294967296 ∧ pp < 4294967296) then
    .error "struct.error: argument out of range"
  else
    .ok (writeBytes buf off (headerRecordBytes e np cp dp pp))

/-- The header-write loop of `compile_to_dt` over all entries, each
paired with its recorded allocation offsets. -/
def writeHeaderAll (buf : List Nat) :
    List (QuestEntry × (Nat × Nat × Nat) × Nat) → Except String (List Nat)
  | [] => .ok buf
  | (e, (np, cp, dp), pp) :: rest => do
    let buf' ← writeHeaderEntry buf e np cp dp pp
    writeHeaderAll buf' rest

/-- `compile_to_dt` on an in-memory document: fails when no entries are
loaded; otherwise allocate all direct strings (phase 1), then all
progress data (phase 2), write the header records, and concatenate
header and body parts in allocation order. -/
def compile_to_dt (entries : List QuestEntry) : Except String (List Nat) :=
  if entries = [] then .error "No entries loaded. Load JSON data first."
  else do
    let headerSize := ENTRY_COUNT * ENTRY_SIZE
    let s := allocStrings headerSize entries
    let p ← allocProgress s.1 entries
    let header ← writeHeaderAll (List.replicate headerSize 0)
      (entries.zip (s.2.2.zip p.2.2))
    .ok (header ++ s.2.1.flatten ++ p.2.1.flatten)

/-! ## Specification-side definitions -/

/-- The byte extent of record `i`'s progress pointer-array, in the words
of the specification: `headers[i+1].progressPointer - headers[i].progressPointer`
when that next pointer is strictly greater and does not exceed the file
length, otherwise the remainder of the file from the record's own pointer
(which truncates to 0 at or past the end); 0 when the pointer is 0. -/
def extentSpec (data : List Nat) (headers : List DTHeader) (i : Nat) : Nat :=
  let thisPtr := (headers.getD i default).progress_ptr
  let nextPtr := (headers.getD (i + 1) default).progress_ptr
  if thisPtr = 0 then 0
  else if i + 1 < ENTRY_COUNT ∧ thisPtr < nextPtr ∧ nextPtr ≤ data.length then
    nextPtr - thisPtr
  else data.length - thisPtr

/-- The bytes phase 1 allocates for one entry: encoded name, client and
description, in that order. -/
def entryStrBytes (e : QuestEntry) : List Nat :=
  encode_sjis_with_null e.name ++ encode_sjis_with_null e.client ++
    encode_sjis_with_null e.description

/-- The whole phase-1 region of the body. -/
def strBlock (es : List QuestEntry) : List Nat := (es.map entryStrBytes).flatten

/-- The bytes of an entry's encoded progress strings, in order. -/
def progTexts (e : QuestEntry) : List Nat :=
  (e.progress.map encode_sjis_with_null).flatten

/-- The number of body bytes phase 2 allocates for one entry: its progress
strings plus 4 bytes per pointer slot; nothing for empty progress. -/
def entryProgSize (e : QuestEntry) : Nat :=
  if e.progress = [] then 0 else (progTexts e).length + 4 * e.progress.length

/-- The number of body bytes phase 2 allocates in total. -/
def progSize (es : List QuestEntry) : Nat := (es.map entryProgSize).sum

/-- The total size of the encoder's output: header table plus both body
phases. -/
def totalSize (es : List QuestEntry) : Nat :=
  ENTRY_COUNT * ENTRY_SIZE + (strBlock es).length + progSize es

/-- The `_name_ptr` phase 1 records for entry `k`. -/
def npSpec (d : List QuestEntry) (k : Nat) : Nat :=
  ENTRY_COUNT * ENTRY_SIZE + (strBlock (d.take k)).length

/-- The `_client_ptr` phase 1 records for entry `k`. -/
def cpSpec (d : List QuestEntry) (k : Nat) : Nat :=
  npSpec d k + (encode_sjis_with_null (d.getD k qDefault).name).length

/-- The `_desc_ptr` phase 1 records for entry `k`. -/
def dpSpec (d : List QuestEntry) (k : Nat) : Nat :=
  cpSpec d k + (encode_sjis_with_null (d.getD k qDefault).client).length

/-- The header record the encoder writes for entry `k`, given the
progress pointers of all entries. -/
def recordFor (d : List QuestEntry) (pptrs : List Nat) (k : Nat) : List Nat :=
  headerRecordBytes (d.getD k qDefault) (npSpec d k) (cpSpec d k) (dpSpec d k)
    (pptrs.getD k 0)

/-- A reserved list as the encoder materialises it: zero-padded on the
right to 11 bytes, elements beyond the 11th ignored. -/
def pad11 (xs : List Nat) : List Nat := (List.range 11).map fun i => xs.getD i 0

/-- The header record of one element of the zipped entry/offsets list the
header-write loop runs over. -/
def recOf : QuestEntry × (Nat × Nat × Nat) × Nat → List Nat
  | (e, (np, cp, dp), pp) => headerRecordBytes e np cp dp pp

/-- An entry with its diagnostic pointers block zeroed, for comparisons
that ignore that block. -/
def stripPtrs (e : QuestEntry) : QuestEntry := { e with pointers := (0, 0, 0, 0) }

/-- A text survives one store/load cycle: encoding it and reading the
result back as a C string returns the same text. -/
def cstringStable (t : Text) : Prop :=
  lineRestore (sjisDecode ((encode_sjis_with_null t).takeWhile (· ≠ 0))) = t

instance (t : Text) : Decidable (cstringStable t) := by
  unfold cstringStable; infer_instance

/-- A structurally valid quest document in the sense of the data model:
exactly 80 entries, `index` equal to position, byte-valued counter, and a
reserved block of exactly 11 byte values. -/
def ValidDoc (d : List QuestEntry) : Prop :=
  d.length = 80 ∧
  (∀ k, k < 80 → (d.getD k qDefault).index = k) ∧
  (∀ k, k < 80 → (d.getD k qDefault).counter < 256) ∧
  (∀ k, k < 80 → (d.getD k qDefault).reserved.length = 11 ∧
    ∀ i, i < 11 → (d.getD k qDefault).reserved.getD i 0 < 256)

instance (d : List QuestEntry) : Decidable (ValidDoc d) := by
  unfold ValidDoc; infer_instance

/-- Every text field of the document survives a store/load cycle. -/
def docTextsStable (d : List QuestEntry) : Prop :=
  ∀ k, k < 80 → cstringStable (d.getD k qDefault).name ∧
    cstringStable (d.getD k qDefault).client ∧
    cstringStable (d.getD k qDefault).description ∧
    ∀ t ∈ (d.getD k qDefault).progress, cstringStable t

instance (d : List QuestEntry) : Decidable (docTextsStable d) := by
  unfold docTextsStable; infer_instance

/-- At most one entry of the document has a non-empty progress sequence. -/
def atMostOneProgress (d : List QuestEntry) : Prop :=
  d.countP (fun e => ¬ e.progress = []) ≤ 1

instance (d : List QuestEntry) : Decidable (atMostOneProgress d) := by
  unfold atMostOneProgress; infer_instance

/-! ## Concrete documents and buffers used as witnesses/counterexamples -/

/-- A minimal well-formed entry at position `k`. -/
def baseEntry (k : Nat) : QuestEntry :=
  { index := k, counter := 0, reserved := List.replicate 11 0, name := [],
    client := [], description := [], progress := [], pointers := (0, 0, 0, 0) }

/-- 80 minimal entries: a valid all-empty document. -/
def sampleDoc : List QuestEntry := (List.range 80).map baseEntry

/-- A valid document whose first two entries both carry progress data:
entry 0 has one short progress string, entry 1 one longer one. -/
def cexDoc : List QuestEntry :=
  (List.range 80).map fun k =>
    if k = 0 then { baseEntry 0 with progress := [['A']] }
    else if k = 1 then { baseEntry 1 with progress := [['A', 'A', 'A', 'A']] }
    else baseEntry k

/-- A well-formed single-entry document (entry count 1 ≠ 80). -/
def singletonDoc : List QuestEntry :=
  [{ baseEntry 0 with name := ['X'], counter := 5 }]

/-- Another single-entry document, with empty fields. -/
def singletonDoc2 : List QuestEntry := [baseEntry 0]

/-- A valid document exercising counter masking and reserved
padding/truncation: every entry has counter 300 and a 13-element
reserved list. -/
def shortResDoc : List QuestEntry :=
  (List.range 80).map fun k =>
    { baseEntry k with
      counter := 300
      reserved := [7, 9, 1, 2, 3, 4, 5, 6, 8, 10, 11, 12, 13] }

/-- A 2240-byte buffer (header table only) whose entry-0 name pointer
points back inside the header table at a non-zero byte. -/
def cexBuf : List Nat :=
  (List.replicate 12 0 ++ [16, 0, 0, 0]) ++ 65 :: List.replicate 2223 0

/-- The progress pointers the encoder allocates for `cexDoc`: entry 0's
array at 2482, entry 1's at 2491, all others 0. -/
def cexPtrs : List Nat := 2482 :: 2491 :: List.replicate 78 0

/-- The phase-2 body the encoder produces for `cexDoc`: entry 0's encoded
progress string and pointer array, then entry 1's. -/
def cexBody : List Nat := [65, 0, 176, 9, 0, 0, 65, 65, 65, 65, 0, 182, 9, 0, 0]

/-- The exact byte buffer the encoder produces for `cexDoc`. -/
def cexOut : List Nat :=
  (((List.range 80).map (recordFor cexDoc cexPtrs)).flatten) ++
    (strBlock cexDoc ++ cexBody)

/-! ## Helper lemmas -/

lemma read_cstring_oob (data : List Nat) (ptr : Nat)
    (h : ptr = 0 ∨ data.length ≤ ptr) : read_cstring_sjis data ptr = [] := by
  unfold read_cstring_sjis
  rw [if_pos h]

lemma parse_ok_of_le (data : List Nat) (h : 2240 ≤ data.length) :
    parse_dt_file data = .ok ((List.range ENTRY_COUNT).map fun i =>
      let headers := (List.range ENTRY_COUNT).map (readHeader data)
      let hd := headers.getD i default
      { index := hd.idx
        counter := hd.counter
        reserved := hd.reserved
        name := read_cstring_sjis data hd.name_ptr
        client := read_cstring_sjis data hd.client_ptr
        description := read_cstring_sjis data hd.description_ptr
        progress := parseProgress data headers i
        pointers := (hd.name_ptr, hd.client_ptr, hd.description_ptr, hd.progress_ptr) }) := by
  unfold parse_dt_file
  rw [if_neg (by unfold ENTRY_COUNT ENTRY_SIZE; omega)]

lemma getD_range_map {α : Type} (f : Nat → α) (n i : Nat) (d : α) (h : i < n) :
    ((List.range n).map f).getD i d = f i := by
  rw [List.getD_eq_getElem _ _ (by simpa using h)]
  simp

lemma replace_incompatible_chars_append (u v : Text) :
    replace_incompatible_chars (u ++ v) =
      replace_incompatible_chars u ++ replace_incompatible_chars v := by
  induction u with
  | nil => rfl
  | cons a u ih => simp [replace_incompatible_chars, ih]

lemma sjisEncodeText_append (u v : Text) :
    sjisEncodeText (u ++ v) = sjisEncodeText u ++ sjisEncodeText v := by
  induction u with
  | nil => rfl
  | cons a u ih => simp [sjisEncodeText, ih]

lemma replaceLineToken_append_notin {c : Char} (hc : c ∉ lineToken) (u v : Text) :
    replaceLineToken (u ++ c :: v) = replaceLineToken u ++ c :: replaceLineToken v := by
  have hc' : ¬ c = '<' ∧ ¬ c = 'L' ∧ ¬ c = 'I' ∧ ¬ c = 'N' ∧ ¬ c = 'E' ∧ ¬ c = '>' := by
    simpa [lineToken] using hc
  induction u using replaceLineToken.induct with
  | case1 rest ih =>
    simp only [List.cons_append, replaceLineToken, List.append_eq, ih]
  | case2 c₀ rest h ih =>
    have hno : ∀ r1 : Text, c₀ = '<' →
        rest ++ c :: v = 'L' :: 'I' :: 'N' :: 'E' :: '>' :: r1 → False := by
      intro r1 hc0 heq
      rcases rest with _ | ⟨a1, _ | ⟨a2, _ | ⟨a3, _ | ⟨a4, _ | ⟨a5, rest5⟩⟩⟩⟩⟩ <;>
        simp_all
    rw [List.cons_append, replaceLineToken.eq_2 _ _ hno,
      replaceLineToken.eq_2 _ _ h, ih, List.cons_append]
  | case3 =>
    rw [List.nil_append, replaceLineToken.eq_2 _ _ (fun r1 hc0 _ => hc'.1 hc0)]
    rfl

/-! ## Claims -/

/-- C6: during decode, resolving a string pointer that is 0 or at/past
the end of the buffer yields empty text (and the resolution is a total
function, so it never raises). -/
theorem C6_zero_or_oob_pointer_empty (data : List Nat) (ptr : Nat)
    (h : ptr = 0 ∨ data.length ≤ ptr) : read_cstring_sjis data ptr = [] :=
  read_cstring_oob data ptr h

theorem C6_zero_or_oob_pointer_empty_witness :
    ((7 : Nat) = 0 ∨ ([5] : List Nat).length ≤ 7) ∧ read_cstring_sjis [5] 7 = [] :=
  ⟨by decide, C6_zero_or_oob_pointer_empty [5] 7 (by decide)⟩

/-- C3: decoding fails with the format error exactly on buffers shorter
than 80·28 = 2240 bytes; on buffers of at least 2240 bytes the check
passes and decoding proceeds to a result. -/
theorem C3_size_gate (data : List Nat) :
    (data.length < 2240 → parse_dt_file data = .error "File too small for header table") ∧
    (2240 ≤ data.length → ∃ es, parse_dt_file data = .ok es) := by
  constructor
  · intro h
    unfold parse_dt_file
    rw [if_pos (by unfold ENTRY_COUNT ENTRY_SIZE; omega)]
  · intro h
    exact ⟨_, parse_ok_of_le data h⟩

theorem C3_size_gate_witness :
    parse_dt_file [] = .error "File too small for header table" ∧
    ∃ es, parse_dt_file (List.replicate 2240 0) = .ok es :=
  ⟨(C3_size_gate []).1 (by simp),
    (C3_size_gate (List.replicate 2240 0)).2 (by rw [List.length_replicate])⟩

/-- C2 counterexample: a well-formed document with a single entry (entry
count 1 ≠ 80) is encoded successfully; the encoder does not raise on an
entry count different from 80. -/
theorem C2_counterexample :
    singletonDoc.length = 1 ∧ (compile_to_dt singletonDoc).isOk = true :=
  ⟨rfl, by decide⟩

/-- C2 (amended): the encoder's only entry-count check is for emptiness:
an empty document fails with the no-entries error, while a well-formed
document with entry count 1 ≠ 80 is encoded to bytes without any count
validation. -/
theorem C2_amended_only_empty_fails :
    compile_to_dt [] = .error "No entries loaded. Load JSON data first." ∧
    (compile_to_dt singletonDoc2).isOk = true :=
  ⟨rfl, by decide⟩

lemma replace_incompatible_em (x : Text) :
    replace_incompatible_chars ('—' :: x) = '-' :: replace_incompatible_chars x := rfl

lemma sjisEncodeText_hyphen (x : Text) :
    sjisEncodeText ('-' :: x) = 45 :: sjisEncodeText x := rfl

/-- C8: encoding any text containing an em dash produces the plain hyphen
byte 0x2D = 45 at the corresponding position of the output, not a generic
replacement marker: the output is the encoding of the part before the
dash, then the byte 45, then the encoding of the part after it and the
terminator. -/
theorem C8_em_dash_encodes_hyphen (u v : Text) :
    encode_sjis_with_null (u ++ '—' :: v) =
      sjisEncodeText (replace_incompatible_chars (replaceLineToken u)) ++
        45 :: (sjisEncodeText (replace_incompatible_chars (replaceLineToken v)) ++ [0]) := by
  unfold encode_sjis_with_null
  rw [if_neg (by simp), replaceLineToken_append_notin (by decide) u v,
    replace_incompatible_chars_append, replace_incompatible_em,
    sjisEncodeText_append, sjisEncodeText_hyphen]
  simp

lemma readProgressSlots_length (data : List Nat) (p : Nat) :
    ∀ (count j : Nat), p + 4 * j + 4 * count ≤ data.length →
      (readProgressSlots data p count j).length = count := by
  intro count
  induction count with
  | zero => intro j _; rfl
  | succ n ih =>
    intro j h
    unfold readProgressSlots
    rw [if_pos (by omega)]
    simp [ih (j + 1) (by omega)]

/-- C4: for every record `i`, the decoded progress list has exactly
`extent / 4` elements, where the extent is as the specification states
it: `headers[i+1].progressPointer - headers[i].progressPointer` when that
next pointer is strictly greater and within the file, otherwise the
remainder of the file from the record's own pointer (0 at or past the
end, and 0 when the pointer itself is 0); the trailing partial slot of a
non-multiple-of-4 extent is dropped by the floor division. -/
theorem C4_progress_extent (data : List Nat) (h : 2240 ≤ data.length)
    (i : Nat) (hi : i < 80) :
    ∃ es, parse_dt_file data = .ok es ∧
      (es.getD i qDefault).progress.length =
        extentSpec data ((List.range ENTRY_COUNT).map (readHeader data)) i / 4 := by
  refine ⟨_, parse_ok_of_le data h, ?_⟩
  rw [getD_range_map _ ENTRY_COUNT i qDefault hi]
  show (parseProgress data ((List.range ENTRY_COUNT).map (readHeader data)) i).length = _
  unfold parseProgress extentSpec
  set hs := (List.range ENTRY_COUNT).map (readHeader data) with hhs
  set tp := (hs.getD i default).progress_ptr with htp
  set np := (hs.getD (i + 1) default).progress_ptr with hnp
  by_cases h0 : tp = 0
  · simp [h0]
  · rw [if_neg h0, if_neg h0]
    have hsize : (if i < ENTRY_COUNT - 1 then
          if tp < np ∧ np ≤ data.length then np - tp
          else if tp < data.length then data.length - tp else 0
        else if tp < data.length then data.length - tp else 0) =
        if i + 1 < ENTRY_COUNT ∧ tp < np ∧ np ≤ data.length then np - tp
        else data.length - tp := by
      unfold ENTRY_COUNT
      split_ifs <;> omega
    simp only [hsize]
    by_cases hC : i + 1 < ENTRY_COUNT ∧ tp < np ∧ np ≤ data.length
    · rw [if_pos hC]
      exact readProgressSlots_length data tp _ 0 (by omega)
    · rw [if_neg hC]
      by_cases hin : tp < data.length
      · exact readProgressSlots_length data tp _ 0 (by omega)
      · rw [show data.length - tp = 0 by omega]
        rfl

theorem C4_progress_extent_witness :
    2240 ≤ (List.replicate 2240 0 : List Nat).length ∧
    ∃ es, parse_dt_file (List.replicate 2240 0) = .ok es ∧
      (es.getD 0 qDefault).progress.length =
        extentSpec (List.replicate 2240 0)
          ((List.range ENTRY_COUNT).map (readHeader (List.replicate 2240 0))) 0 / 4 :=
  ⟨by rw [List.length_replicate],
    C4_progress_extent (List.replicate 2240 0) (by rw [List.length_replicate]) 0 (by omega)⟩

/-- C9 counterexample: a buffer of exactly 2240 bytes (no body) whose
entry-0 name pointer points back inside the header table at a non-zero
byte decodes without error, but entry 0's name is the non-empty text
"A"; so not every field of a 2240-byte buffer decodes to empty. -/
lemma takeWhile_replicate_zero (n : Nat) :
    (List.replicate n (0 : Nat)).takeWhile (· ≠ 0) = [] := by
  cases n with
  | zero => rfl
  | succ m => simp [List.replicate_succ, List.takeWhile_cons]

lemma cexBuf_head_len : (List.replicate 12 (0 : Nat) ++ [16, 0, 0, 0]).length = 16 := by
  rw [List.length_append, List.length_replicate]
  rfl

lemma cexBuf_len : cexBuf.length = 2240 := by
  unfold cexBuf
  rw [List.length_append, cexBuf_head_len, List.length_cons, List.length_replicate]

lemma cexBuf_getD_hdr : ∀ j, j < 4 → cexBuf.getD (12 + j) 0 = [16, 0, 0, 0].getD j 0 := by
  intro j hj
  unfold cexBuf
  rw [List.getD_append _ _ _ _ (by rw [cexBuf_head_len]; omega),
    List.getD_append_right _ _ _ _ (by rw [List.length_replicate]; omega),
    List.length_replicate]
  congr 1
  omega

lemma cexBuf_name_ptr : readU32 cexBuf 12 = 16 := by
  have h0 := cexBuf_getD_hdr 0 (by omega)
  have h1 := cexBuf_getD_hdr 1 (by omega)
  have h2 := cexBuf_getD_hdr 2 (by omega)
  have h3 := cexBuf_getD_hdr 3 (by omega)
  simp only [Nat.add_zero, List.getD_cons_zero] at h0
  unfold readU32
  rw [h0, h1, h2, h3]
  rfl

lemma cexBuf_name_at_16 : read_cstring_sjis cexBuf 16 = ['A'] := by
  unfold read_cstring_sjis
  rw [if_neg (by rw [cexBuf_len]; omega)]
  have hdrop : cexBuf.drop 16 = 65 :: List.replicate 2223 0 := by
    unfold cexBuf
    nth_rewrite 1 [← cexBuf_head_len]
    rw [List.drop_left]
  rw [hdrop, List.takeWhile_cons]
  simp only [takeWhile_replicate_zero]
  rfl

/-- C9 counterexample: a buffer of exactly 2240 bytes (no body) whose
entry-0 name pointer points back inside the header table at a non-zero
byte decodes without error, but entry 0's name is the non-empty text
"A"; so not every field of a 2240-byte buffer decodes to empty. -/
theorem C9_counterexample :
    cexBuf.length = 2240 ∧
    (∃ es, parse_dt_file cexBuf = .ok es ∧ (es.getD 0 qDefault).name = ['A']) ∧
    (['A'] : Text) ≠ [] := by
  refine ⟨cexBuf_len, ⟨_, parse_ok_of_le cexBuf (by rw [cexBuf_len]), ?_⟩, by decide⟩
  rw [getD_range_map _ ENTRY_COUNT 0 qDefault (by unfold ENTRY_COUNT; omega)]
  dsimp only
  rw [getD_range_map _ ENTRY_COUNT 0 default (by unfold ENTRY_COUNT; omega)]
  show read_cstring_sjis cexBuf (readHeader cexBuf 0).name_ptr = ['A']
  have : (readHeader cexBuf 0).name_ptr = 16 := by
    unfold readHeader
    simpa using cexBuf_name_ptr
  rw [this, cexBuf_name_at_16]

lemma getD_replicate_zero (n i : Nat) : (List.replicate n (0 : Nat)).getD i 0 = 0 := by
  induction n generalizing i with
  | zero => cases i <;> rfl
  | succ m ih => cases i with
    | zero => rfl
    | succ j => simp only [List.replicate_succ, List.getD_cons_succ, ih j]

lemma readU32_replicate_zero (n off : Nat) : readU32 (List.replicate n 0) off = 0 := by
  simp [readU32, getD_replicate_zero]

/-- C9 (amended): decoding a buffer of exactly 2240 bytes (header table
only, no body) succeeds, and — provided each stored pointer field is
either 0 or at least 2240, i.e. the buffer really carries no body to
point into — every name, client and description decodes to empty text
and every progress sequence to the empty list. -/
theorem C9_amended_header_only (data : List Nat) (hlen : data.length = 2240)
    (hp : ∀ k, k < 80 → ∀ p ∈ [(readHeader data k).name_ptr,
      (readHeader data k).client_ptr, (readHeader data k).description_ptr,
      (readHeader data k).progress_ptr], p = 0 ∨ 2240 ≤ p) :
    ∃ es, parse_dt_file data = .ok es ∧ es.length = 80 ∧
      ∀ k, k < 80 → (es.getD k qDefault).name = [] ∧
        (es.getD k qDefault).client = [] ∧
        (es.getD k qDefault).description = [] ∧
        (es.getD k qDefault).progress = [] := by
  refine ⟨_, parse_ok_of_le data (by omega), by simp [ENTRY_COUNT], ?_⟩
  intro k hk
  rw [getD_range_map _ ENTRY_COUNT k qDefault (by unfold ENTRY_COUNT; omega)]
  dsimp only
  have hhd : ((List.range ENTRY_COUNT).map (readHeader data)).getD k default =
      readHeader data k :=
    getD_range_map _ ENTRY_COUNT k default (by unfold ENTRY_COUNT; omega)
  rw [hhd]
  have hoob : ∀ p ∈ [(readHeader data k).name_ptr, (readHeader data k).client_ptr,
      (readHeader data k).description_ptr, (readHeader data k).progress_ptr],
      p = 0 ∨ data.length ≤ p := by
    intro p hpm
    rcases hp k hk p hpm with h | h
    · exact Or.inl h
    · exact Or.inr (by omega)
  refine ⟨?_, ?_, ?_, ?_⟩
  · exact read_cstring_oob data _ (hoob _ (by simp))
  · exact read_cstring_oob data _ (hoob _ (by simp))
  · exact read_cstring_oob data _ (hoob _ (by simp))
  · show parseProgress data ((List.range ENTRY_COUNT).map (readHeader data)) k = []
    unfold parseProgress
    rw [hhd]
    rcases hoob _ (by simp : (readHeader data k).progress_ptr ∈ _) with h0 | hbig
    · simp [h0]
    · rw [if_neg (by omega)]
      have hsz : (if k < ENTRY_COUNT - 1 then
            if (readHeader data k).progress_ptr <
                  (((List.range ENTRY_COUNT).map (readHeader data)).getD (k + 1) default).progress_ptr ∧
                (((List.range ENTRY_COUNT).map (readHeader data)).getD (k + 1) default).progress_ptr ≤
                  data.length then
              (((List.range ENTRY_COUNT).map (readHeader data)).getD (k + 1) default).progress_ptr -
                (readHeader data k).progress_ptr
            else if (readHeader data k).progress_ptr < data.length then
              data.length - (readHeader data k).progress_ptr
            else 0
          else if (readHeader data k).progress_ptr < data.length then
            data.length - (readHeader data k).progress_ptr
          else 0) = 0 := by
        split_ifs <;> omega
      simp only [hsz]
      rfl

/-! ## Byte-level helper lemmas -/

lemma takeWhile_append_of_mem {p : Nat → Bool} {l₁ l₂ : List Nat}
    (h : ∃ b ∈ l₁, ¬ p b) : (l₁ ++ l₂).takeWhile p = l₁.takeWhile p := by
  induction l₁ with
  | nil => simp at h
  | cons a l ih =>
    rw [List.cons_append, List.takeWhile_cons, List.takeWhile_cons]
    by_cases hpa : p a
    · rcases h with ⟨b, hb, hpb⟩
      rcases List.mem_cons.mp hb with hb' | hb'
      · exact absurd (hb' ▸ hpa) hpb
      · rw [if_pos hpa, if_pos hpa, ih ⟨b, hb', hpb⟩]
    · rw [if_neg hpa, if_neg hpa]

lemma encode_length_pos (t : Text) : 0 < (encode_sjis_with_null t).length := by
  unfold encode_sjis_with_null
  split_ifs <;> simp

lemma zero_mem_encode (t : Text) : (0 : Nat) ∈ encode_sjis_with_null t := by
  unfold encode_sjis_with_null
  split_ifs <;> simp

lemma getD_drop' (l : List Nat) (n m : Nat) : l.getD (n + m) 0 = (l.drop n).getD m 0 := by
  simp [List.getD_eq_getElem?_getD, List.getElem?_drop]

lemma readU32_of_drop (data : List Nat) (off a b c e : Nat) (rest : List Nat)
    (hdrop : data.drop off = a :: b :: c :: e :: rest) :
    readU32 data off = a + 256 * b + 65536 * c + 16777216 * e := by
  have h0 : data.getD off 0 = a := by
    have h := getD_drop' data off 0
    rw [Nat.add_zero] at h
    rw [h, hdrop]
    rfl
  have h1 : data.getD (off + 1) 0 = b := by rw [getD_drop' data off 1, hdrop]; rfl
  have h2 : data.getD (off + 2) 0 = c := by rw [getD_drop' data off 2, hdrop]; rfl
  have h3 : data.getD (off + 3) 0 = e := by rw [getD_drop' data off 3, hdrop]; rfl
  unfold readU32
  rw [h0, h1, h2, h3]

lemma readU32_of_u32le (data : List Nat) (off n : Nat) (rest : List Nat)
    (hdrop : data.drop off = u32le n ++ rest) (hn : n < 4294967296) :
    readU32 data off = n := by
  rw [readU32_of_drop data off _ _ _ _ rest (by rw [hdrop]; rfl)]
  omega

lemma u32le_length (n : Nat) : (u32le n).length = 4 := rfl

lemma pad11_length (xs : List Nat) : (pad11 xs).length = 11 := by
  simp [pad11]

lemma headerRecordBytes_length (e : QuestEntry) (np cp dp pp : Nat) :
    (headerRecordBytes e np cp dp pp).length = 28 := by
  simp [headerRecordBytes, u32le]

lemma read_cstring_at_chunk (data : List Nat) (ptr : Nat) (t : Text) (rest : List Nat)
    (hdrop : data.drop ptr = encode_sjis_with_null t ++ rest) (hptr : ptr ≠ 0)
    (hst : cstringStable t) : read_cstring_sjis data ptr = t := by
  have hne : data.drop ptr ≠ [] := by
    rw [hdrop]
    intro hx
    rcases List.append_eq_nil.mp hx with ⟨h1, _⟩
    have hpos := encode_length_pos t
    rw [h1] at hpos
    simp at hpos
  have hlt : ptr < data.length := by
    by_contra hc
    exact hne (List.drop_eq_nil_iff.mpr (by omega))
  unfold read_cstring_sjis
  rw [if_neg (by omega), hdrop,
    takeWhile_append_of_mem ⟨0, zero_mem_encode t, by decide⟩]
  exact hst

lemma flatten_drop_at {α : Type} (L : List (List α)) (k : Nat) :
    L.flatten.drop ((L.take k).flatten.length) = (L.drop k).flatten := by
  have h : L.flatten = (L.take k).flatten ++ (L.drop k).flatten := by
    rw [← List.flatten_append, List.take_append_drop]
  rw [h, List.drop_left]

/-! ## Phase-1 allocation lemmas -/

lemma strBlock_nil : strBlock [] = [] := rfl

lemma strBlock_cons (e : QuestEntry) (es : List QuestEntry) :
    strBlock (e :: es) = entryStrBytes e ++ strBlock es := by
  simp [strBlock]

lemma entryStrBytes_length (e : QuestEntry) :
    (entryStrBytes e).length = (encode_sjis_with_null e.name).length +
      (encode_sjis_with_null e.client).length +
      (encode_sjis_with_null e.description).length := by
  simp [entryStrBytes]
  omega

lemma allocStrings_cursor (es : List QuestEntry) :
    ∀ c, (allocStrings c es).1 = c + (strBlock es).length := by
  induction es with
  | nil => intro c; simp [allocStrings, strBlock_nil]
  | cons e es ih =>
    intro c
    simp only [allocStrings, strBlock_cons, List.length_append, ih]
    rw [entryStrBytes_length]
    omega

lemma allocStrings_parts (es : List QuestEntry) :
    ∀ c, (allocStrings c es).2.1.flatten = strBlock es := by
  induction es with
  | nil => intro c; rfl
  | cons e es ih =>
    intro c
    simp only [allocStrings, List.flatten_cons, strBlock_cons, entryStrBytes, ih,
      List.append_assoc]

lemma allocStrings_ptrs_length (es : List QuestEntry) :
    ∀ c, (allocStrings c es).2.2.length = es.length := by
  induction es with
  | nil => intro c; rfl
  | cons e es ih => intro c; simp only [allocStrings, List.length_cons, ih]

lemma allocStrings_ptrs_getD (es : List QuestEntry) :
    ∀ c k, k < es.length →
      (allocStrings c es).2.2.getD k (0, 0, 0) =
        (c + (strBlock (es.take k)).length,
         c + (strBlock (es.take k)).length +
           (encode_sjis_with_null (es.getD k qDefault).name).length,
         c + (strBlock (es.take k)).length +
           (encode_sjis_with_null (es.getD k qDefault).name).length +
           (encode_sjis_with_null (es.getD k qDefault).client).length) := by
  induction es with
  | nil => intro c k hk; simp at hk
  | cons e es ih =>
    intro c k hk
    cases k with
    | zero =>
      simp [allocStrings, strBlock_nil]
    | succ k =>
      simp only [allocStrings, List.getD_cons_succ, List.take_succ_cons, strBlock_cons,
        List.length_append]
      rw [ih _ k (by simpa using hk)]
      rw [Prod.ext_iff, Prod.ext_iff]
      refine ⟨?_, ?_, ?_⟩ <;> simp <;> [skip; skip; skip] <;> rw [entryStrBytes_length] <;> omega

/-! ## Phase-2 allocation lemmas -/

lemma allocTexts_cursor (ts : List Text) :
    ∀ c, (allocTexts c ts).1 = c + ((ts.map encode_sjis_with_null).flatten).length := by
  induction ts with
  | nil => intro c; simp [allocTexts]
  | cons t ts ih =>
    intro c
    simp only [allocTexts, List.map_cons, List.flatten_cons, List.length_append, ih]
    omega

lemma allocTexts_parts (ts : List Text) :
    ∀ c, (allocTexts c ts).2.1.flatten = (ts.map encode_sjis_with_null).flatten := by
  induction ts with
  | nil => intro c; rfl
  | cons t ts ih => intro c; simp only [allocTexts, List.flatten_cons, List.map_cons, ih]

lemma allocTexts_ptrs_length (ts : List Text) :
    ∀ c, (allocTexts c ts).2.2.length = ts.length := by
  induction ts with
  | nil => intro c; rfl
  | cons t ts ih => intro c; simp only [allocTexts, List.length_cons, ih]

lemma allocTexts_ptrs_getD (ts : List Text) :
    ∀ c k, k < ts.length →
      (allocTexts c ts).2.2.getD k 0 =
        c + (((ts.take k).map encode_sjis_with_null).flatten).length := by
  induction ts with
  | nil => intro c k hk; simp at hk
  | cons t ts ih =>
    intro c k hk
    cases k with
    | zero => simp [allocTexts]
    | succ k =>
      simp only [allocTexts, List.getD_cons_succ, List.take_succ_cons, List.map_cons,
        List.flatten_cons, List.length_append]
      rw [ih _ k (by simpa using hk)]
      omega

lemma allocTexts_ptrs_lt (ts : List Text) :
    ∀ c x, x ∈ (allocTexts c ts).2.2 → x < (allocTexts c ts).1 := by
  induction ts with
  | nil => intro c x hx; simp [allocTexts] at hx
  | cons t ts ih =>
    intro c x hx
    simp only [allocTexts, List.mem_cons] at hx
    rw [allocTexts_cursor]
    rcases hx with hx | hx
    · subst hx
      have := encode_length_pos t
      simp only [List.map_cons, List.flatten_cons, List.length_append]
      omega
    · have := ih (c + (encode_sjis_with_null t).length) x hx
      rw [allocTexts_cursor] at this
      simp only [List.map_cons, List.flatten_cons, List.length_append]
      omega

lemma u32_flatten_length (l : List Nat) : ((l.map u32le).flatten).length = 4 * l.length := by
  induction l with
  | nil => rfl
  | cons a l ih =>
    simp only [List.map_cons, List.flatten_cons, List.length_append, ih, u32le_length,
      List.length_cons]
    omega

lemma mapM_pack32_ok (l : List Nat) (h : ∀ x ∈ l, x < 4294967296) :
    l.mapM pack32 = .ok (l.map u32le) := by
  induction l with
  | nil => rfl
  | cons a l ih =>
    rw [List.mapM_cons, show pack32 a = .ok (u32le a) from if_pos (h a (List.mem_cons_self a l)),
      ih (fun x hx => h x (List.mem_cons_of_mem a hx))]
    rfl

lemma mapM_pack32_inv (l : List Nat) :
    ∀ ys, l.mapM pack32 = .ok ys → ys = l.map u32le := by
  induction l with
  | nil =>
    intro ys h
    simp only [List.mapM_nil, pure, Except.pure, Except.ok.injEq] at h
    exact h.symm
  | cons a l ih =>
    intro ys h
    rw [List.mapM_cons] at h
    by_cases ha : a < 4294967296
    · rw [show pack32 a = .ok (u32le a) from if_pos ha] at h
      cases hrec : l.mapM pack32 with
      | error e =>
        rw [hrec] at h
        simp [Bind.bind, Except.bind] at h
      | ok zs =>
        rw [hrec] at h
        simp only [Bind.bind, Except.bind, pure, Except.pure, Except.ok.injEq] at h
        rw [List.map_cons, ← ih zs hrec, ← h]
    · rw [show pack32 a = Except.error "struct.error: argument out of range" from if_neg ha] at h
      simp [Bind.bind, Except.bind] at h

lemma progSize_nil : progSize [] = 0 := rfl

lemma progSize_cons (e : QuestEntry) (es : List QuestEntry) :
    progSize (e :: es) = entryProgSize e + progSize es := by
  simp [progSize]

lemma allocProgress_all_empty (es : List QuestEntry) (h : ∀ e ∈ es, e.progress = []) :
    ∀ c, allocProgress c es = .ok (c, [], List.replicate es.length 0) := by
  induction es with
  | nil => intro c; rfl
  | cons e es ih =>
    intro c
    unfold allocProgress
    rw [if_pos (h e (List.mem_cons_self e es)),
      ih (fun x hx => h x (List.mem_cons_of_mem e hx)) c]
    rfl

lemma progSize_all_empty (es : List QuestEntry) (h : ∀ e ∈ es, e.progress = []) :
    progSize es = 0 := by
  induction es with
  | nil => rfl
  | cons e es ih =>
    rw [progSize_cons, ih (fun x hx => h x (List.mem_cons_of_mem e hx))]
    simp [entryProgSize, h e (List.mem_cons_self e es)]

lemma allocProgress_pre_empty (pre : List QuestEntry) (hpre : ∀ e ∈ pre, e.progress = []) :
    ∀ (rest : List QuestEntry) (c : Nat) (r : Nat × List (List Nat) × List Nat),
      allocProgress c rest = .ok r →
      allocProgress c (pre ++ rest) = .ok (r.1, r.2.1, List.replicate pre.length 0 ++ r.2.2) := by
  induction pre with
  | nil => intro rest c r h; simpa using h
  | cons e pre ih =>
    intro rest c r h
    rw [List.cons_append]
    unfold allocProgress
    rw [if_pos (hpre e (List.mem_cons_self e pre)),
      ih (fun x hx => hpre x (List.mem_cons_of_mem e hx)) rest c r h]
    rfl

lemma allocProgress_cons_nonempty (c : Nat) (e : QuestEntry) (es : List QuestEntry)
    (hne : ¬ e.progress = [])
    (hlt : ∀ x ∈ (allocTexts c e.progress).2.2, x < 4294967296)
    (r : Nat × List (List Nat) × List Nat)
    (hrec : allocProgress ((allocTexts c e.progress).1 + 4 * e.progress.length) es = .ok r) :
    allocProgress c (e :: es) = .ok (r.1,
      (allocTexts c e.progress).2.1 ++
        ((allocTexts c e.progress).2.2.map u32le).flatten :: r.2.1,
      (allocTexts c e.progress).1 :: r.2.2) := by
  unfold allocProgress
  rw [if_neg hne]
  dsimp only
  rw [show ((allocTexts c e.progress).2.2.mapM pack32) =
    .ok ((allocTexts c e.progress).2.2.map u32le) from mapM_pack32_ok _ hlt]
  have harr : (((allocTexts c e.progress).2.2.map u32le).flatten).length =
      4 * e.progress.length := by
    rw [u32_flatten_length, allocTexts_ptrs_length]
  simp only [Except.map, Bind.bind, Except.bind]
  rw [harr, hrec]

lemma progTexts_length_le (e : QuestEntry) (hne : ¬ e.progress = []) :
    (progTexts e).length + 4 * e.progress.length = entryProgSize e := by
  simp [entryProgSize, hne]

lemma allocProgress_ok (es : List QuestEntry) :
    ∀ c, c + progSize es ≤ 4294967296 →
      ∃ parts pptrs, allocProgress c es = .ok (c + progSize es, parts, pptrs) ∧
        parts.flatten.length = progSize es ∧ pptrs.length = es.length ∧
        ∀ k, k < es.length →
          ((es.getD k qDefault).progress = [] → pptrs.getD k 0 = 0) ∧
          (pptrs.getD k 0 = 0 ∨ (c ≤ pptrs.getD k 0 ∧ pptrs.getD k 0 < c + progSize es)) := by
  induction es with
  | nil =>
    intro c _
    exact ⟨[], [], by simp [allocProgress, progSize_nil], by rfl, rfl, by simp⟩
  | cons e es ih =>
    intro c hc
    rw [progSize_cons] at hc
    by_cases hpe : e.progress = []
    · have hsz : entryProgSize e = 0 := by simp [entryProgSize, hpe]
      rw [hsz] at hc
      obtain ⟨parts, pptrs, heq, hplen, hlen, hfacts⟩ := ih c (by omega)
      refine ⟨parts, 0 :: pptrs, ?_, by rw [progSize_cons, hsz, Nat.zero_add]; exact hplen, ?_, ?_⟩
      · unfold allocProgress
        rw [if_pos hpe, heq]
        show Except.ok _ = _
        rw [progSize_cons, hsz]
        simp
      · simp [hlen]
      · intro k hk
        cases k with
        | zero =>
          exact ⟨fun _ => rfl, Or.inl rfl⟩
        | succ k =>
          obtain ⟨h1, h2⟩ := hfacts k (by simpa using hk)
          refine ⟨fun hp => by simpa using h1 (by simpa using hp), ?_⟩
          rw [progSize_cons, hsz]
          simpa using h2
    · have hPT : (progTexts e).length + 4 * e.progress.length = entryProgSize e :=
        progTexts_length_le e hpe
      have hs1 : (allocTexts c e.progress).1 = c + (progTexts e).length := by
        rw [allocTexts_cursor]
        rfl
      have hkpos : 1 ≤ e.progress.length := by
        cases hpp : e.progress with
        | nil => exact absurd hpp hpe
        | cons a l => simp [hpp]
      obtain ⟨parts, pptrs, heq, hplen, hlen, hfacts⟩ :=
        ih ((allocTexts c e.progress).1 + 4 * e.progress.length) (by rw [hs1]; omega)
      have hlt : ∀ x ∈ (allocTexts c e.progress).2.2, x < 4294967296 := by
        intro x hx
        have := allocTexts_ptrs_lt e.progress c x hx
        rw [hs1] at this
        omega
      refine ⟨(allocTexts c e.progress).2.1 ++
          ((allocTexts c e.progress).2.2.map u32le).flatten :: parts,
        (allocTexts c e.progress).1 :: pptrs, ?_, ?_, ?_, ?_⟩
      · rw [allocProgress_cons_nonempty c e es hpe hlt _ heq]
        have harith : (allocTexts c e.progress).1 + 4 * e.progress.length + progSize es =
            c + progSize (e :: es) := by
          rw [hs1, progSize_cons]
          omega
        rw [harith]
      · simp only [List.flatten_append, List.flatten_cons, List.length_append]
        rw [allocTexts_parts, u32_flatten_length, allocTexts_ptrs_length,
          show ((e.progress.map encode_sjis_with_null).flatten).length =
            (progTexts e).length from rfl, hplen, progSize_cons]
        omega
      · simp [hlen]
      · intro k hk
        cases k with
        | zero =>
          refine ⟨fun hp => absurd hp hpe, Or.inr ⟨?_, ?_⟩⟩
          · simp only [List.getD_cons_zero]
            rw [hs1]
            omega
          · simp only [List.getD_cons_zero]
            rw [hs1, progSize_cons]
            omega
        | succ k =>
          obtain ⟨h1, h2⟩ := hfacts k (by simpa using hk)
          refine ⟨fun hp => by simpa using h1 (by simpa using hp), ?_⟩
          simp only [List.getD_cons_succ]
          rcases h2 with h2 | ⟨h2a, h2b⟩
          · exact Or.inl h2
          · refine Or.inr ⟨by rw [hs1] at h2a; omega, ?_⟩
            rw [hs1] at h2b
            rw [progSize_cons]
            omega

lemma writeBytes_length (buf : List Nat) (off : Nat) (bs : List Nat)
    (h : off + bs.length ≤ buf.length) : (writeBytes buf off bs).length = buf.length := by
  simp only [writeBytes, List.length_append, List.length_take, List.length_drop]
  omega

lemma writeHeaderEntry_ok (buf : List Nat) (e : QuestEntry) (np cp dp pp m : Nat)
    (hei : e.index = m) (hm : 28 * m + 28 ≤ 2240)
    (hres : ∀ i, i < 11 → e.reserved.getD i 0 < 256)
    (hnp : np < 4294967296) (hcp : cp < 4294967296) (hdp : dp < 4294967296)
    (hpp : pp < 4294967296) :
    writeHeaderEntry buf e np cp dp pp =
      .ok (writeBytes buf (28 * m) (headerRecordBytes e np cp dp pp)) := by
  have hoff : e.index * ENTRY_SIZE = 28 * m := by
    rw [hei]
    unfold ENTRY_SIZE
    ring
  have hall : ((List.range 11).all fun i => decide (e.reserved.getD i 0 < 256)) = true :=
    List.all_eq_true.mpr fun i hi => decide_eq_true (hres i (List.mem_range.mp hi))
  unfold writeHeaderEntry
  dsimp only
  rw [hoff, if_neg (by unfold ENTRY_COUNT ENTRY_SIZE; omega),
    if_neg (not_not_intro hall), if_neg (not_not_intro ⟨hnp, hcp, hdp, hpp⟩)]

lemma writeHeaderAll_spec (xs : List (QuestEntry × (Nat × Nat × Nat) × Nat)) :
    ∀ (buf : List Nat) (m : Nat),
      buf.length = 2240 →
      (∀ j, j < xs.length → (xs.getD j default).1.index = m + j) →
      28 * (m + xs.length) ≤ 2240 →
      (∀ j, j < xs.length → ∀ i, i < 11 →
        (xs.getD j default).1.reserved.getD i 0 < 256) →
      (∀ j, j < xs.length → (xs.getD j default).2.1.1 < 4294967296 ∧
        (xs.getD j default).2.1.2.1 < 4294967296 ∧
        (xs.getD j default).2.1.2.2 < 4294967296 ∧
        (xs.getD j default).2.2 < 4294967296) →
      writeHeaderAll buf xs =
        .ok (buf.take (28 * m) ++ (xs.map recOf).flatten ++
          buf.drop (28 * m + 28 * xs.length)) := by
  induction xs with
  | nil =>
    intro buf m hlen hidx hbound hres hptr
    simp only [writeHeaderAll, List.map_nil, List.flatten_nil, List.length_nil,
      Nat.mul_zero, Nat.add_zero, List.nil_append, List.append_nil]
    rw [List.take_append_drop]
  | cons x xs ih =>
    intro buf m hlen hidx hbound hres hptr
    obtain ⟨e, ⟨np, cp, dp⟩, pp⟩ := x
    have hei : e.index = m := by simpa using hidx 0 (by simp)
    have hmb : 28 * m + 28 ≤ 2240 := by
      simp only [List.length_cons] at hbound
      omega
    have hptr0 := hptr 0 (by simp)
    simp only [List.getD_cons_zero] at hptr0
    have hwrite := writeHeaderEntry_ok buf e np cp dp pp m hei hmb
      (by intro i hi; simpa using hres 0 (by simp) i hi)
      hptr0.1 hptr0.2.1 hptr0.2.2.1 hptr0.2.2.2
    show (do
      let buf' ← writeHeaderEntry buf e np cp dp pp
      writeHeaderAll buf' xs) = _
    rw [hwrite]
    simp only [Bind.bind, Except.bind]
    have hrlen := headerRecordBytes_length e np cp dp pp
    have hlen' : (writeBytes buf (28 * m) (headerRecordBytes e np cp dp pp)).length = 2240 := by
      rw [writeBytes_length buf _ _ (by omega)]
      exact hlen
    rw [ih _ (m + 1) hlen'
      (by intro j hj
          have := hidx (j + 1) (by simp; omega)
          simp only [List.getD_cons_succ] at this
          rw [this]
          omega)
      (by simp only [List.length_cons] at hbound; omega)
      (by intro j hj i hi
          have := hres (j + 1) (by simp; omega) i hi
          simpa using this)
      (by intro j hj
          have := hptr (j + 1) (by simp; omega)
          simpa using this)]
    have hwb : writeBytes buf (28 * m) (headerRecordBytes e np cp dp pp) =
        (buf.take (28 * m) ++ headerRecordBytes e np cp dp pp) ++
          buf.drop (28 * m + 28) := by
      simp [writeBytes, hrlen, List.append_assoc]
    have htk : (buf.take (28 * m) ++ headerRecordBytes e np cp dp pp).length =
        28 * (m + 1) := by
      rw [List.length_append, List.length_take, hrlen]
      have : 28 * m ≤ buf.length := by omega
      omega
    congr 1
    rw [hwb]
    rw [show 28 * (m + 1) = (buf.take (28 * m) ++ headerRecordBytes e np cp dp pp).length
      from htk.symm]
    rw [List.take_left, List.drop_append, List.drop_drop]
    show _ = buf.take (28 * m) ++ (headerRecordBytes e np cp dp pp ::
      xs.map recOf).flatten ++ _
    rw [List.flatten_cons]
    rw [show 28 * m + 28 + 28 * xs.length = 28 * m + 28 * (xs.length + 1) from by ring]
    simp only [List.length_cons, List.append_assoc]

lemma strBlock_append (a b : List QuestEntry) :
    strBlock (a ++ b) = strBlock a ++ strBlock b := by
  simp [strBlock]

lemma strBlock_take_succ (d : List QuestEntry) (k : Nat) (hk : k < d.length) :
    strBlock (d.take (k + 1)) = strBlock (d.take k) ++ entryStrBytes (d.getD k qDefault) := by
  rw [List.take_succ, List.getElem?_eq_getElem hk]
  rw [strBlock_append]
  rw [List.getD_eq_getElem _ _ hk]
  simp [strBlock]

lemma strBlock_take_len_le (d : List QuestEntry) (k : Nat) :
    (strBlock (d.take k)).length ≤ (strBlock d).length := by
  conv_rhs => rw [← List.take_append_drop k d]
  rw [strBlock_append, List.length_append]
  omega

lemma strBlock_take_succ_le (d : List QuestEntry) (k : Nat) (_hk : k < d.length) :
    (strBlock (d.take (k + 1))).length ≤ (strBlock d).length := by
  conv_rhs => rw [← List.take_append_drop (k + 1) d]
  rw [strBlock_append, List.length_append]
  omega

lemma dpSpec_desc_le_total (d : List QuestEntry) (k : Nat) (hk : k < d.length) :
    dpSpec d k + (encode_sjis_with_null (d.getD k qDefault).description).length ≤
      totalSize d := by
  unfold dpSpec cpSpec npSpec totalSize
  have h1 := strBlock_take_succ d k hk
  have h2 := strBlock_take_succ_le d k hk
  rw [h1, List.length_append, entryStrBytes_length] at h2
  omega

lemma npSpec_lt (d : List QuestEntry) (k : Nat) (hk : k < d.length)
    (hsz : totalSize d ≤ 4294967296) : npSpec d k < 4294967296 := by
  have h := dpSpec_desc_le_total d k hk
  have hd := encode_length_pos (d.getD k qDefault).description
  unfold dpSpec cpSpec at h
  omega

lemma cpSpec_lt (d : List QuestEntry) (k : Nat) (hk : k < d.length)
    (hsz : totalSize d ≤ 4294967296) : cpSpec d k < 4294967296 := by
  have h := dpSpec_desc_le_total d k hk
  have hd := encode_length_pos (d.getD k qDefault).description
  unfold dpSpec at h
  omega

lemma dpSpec_lt (d : List QuestEntry) (k : Nat) (hk : k < d.length)
    (hsz : totalSize d ≤ 4294967296) : dpSpec d k < 4294967296 := by
  have h := dpSpec_desc_le_total d k hk
  have hd := encode_length_pos (d.getD k qDefault).description
  omega

lemma records_flatten_length (d : List QuestEntry) (pptrs : List Nat) :
    (((List.range 80).map (recordFor d pptrs)).flatten).length = 2240 := by
  rw [List.length_flatten, List.map_map]
  have h : (List.range 80).map (List.length ∘ recordFor d pptrs) =
      List.replicate 80 28 := by
    apply List.ext_getElem (by simp)
    intro i h1 h2
    simp only [List.getElem_map, List.getElem_range, List.getElem_replicate,
      Function.comp]
    exact headerRecordBytes_length _ _ _ _ _
  rw [h, List.sum_replicate]
  rfl

lemma zip_getD (d : List QuestEntry) (ts : List (Nat × Nat × Nat)) (ps : List Nat)
    (j : Nat) (hj : j < d.length) (h1 : ts.length = d.length) (h2 : ps.length = d.length) :
    (d.zip (ts.zip ps)).getD j default =
      (d.getD j qDefault, (ts.getD j (0, 0, 0), ps.getD j 0)) := by
  have hz : (ts.zip ps).length = d.length := by
    rw [List.length_zip, h1, h2]
    omega
  have hlen : (d.zip (ts.zip ps)).length = d.length := by
    rw [List.length_zip, hz]
    omega
  rw [List.getD_eq_getElem _ _ (by omega : j < (d.zip (ts.zip ps)).length)]
  rw [List.getElem_zip, List.getElem_zip]
  rw [List.getD_eq_getElem _ _ hj, List.getD_eq_getElem _ _ (by omega : j < ts.length),
    List.getD_eq_getElem _ _ (by omega : j < ps.length)]

lemma zip_map_recOf (d : List QuestEntry) (ts : List (Nat × Nat × Nat)) (ps : List Nat)
    (h80 : d.length = 80) (hts : ts.length = d.length) (hps : ps.length = d.length)
    (htv : ∀ j, j < 80 → ts.getD j (0, 0, 0) = (npSpec d j, cpSpec d j, dpSpec d j)) :
    (d.zip (ts.zip ps)).map recOf = (List.range 80).map (recordFor d ps) := by
  apply List.ext_getElem
  · rw [List.length_map, List.length_zip, List.length_zip, hts, hps, h80]
    simp
  · intro i h1 h2
    rw [List.length_map, List.length_zip, List.length_zip, hts, hps, h80] at h1
    simp only [Nat.min_self] at h1
    have hzl : i < (d.zip (ts.zip ps)).length := by
      rw [List.length_zip, List.length_zip, hts, hps, h80]
      simpa using h1
    rw [List.getElem_map, List.getElem_map, List.getElem_range,
      ← List.getD_eq_getElem (d.zip (ts.zip ps)) default hzl,
      zip_getD d ts ps i (by omega) hts hps, htv i h1]
    rfl

lemma compile_eq_of_alloc (d : List QuestEntry)
    (h80 : d.length = 80)
    (hidx : ∀ k, k < 80 → (d.getD k qDefault).index = k)
    (hres : ∀ k, k < 80 → ∀ i, i < 11 → (d.getD k qDefault).reserved.getD i 0 < 256)
    (PB2 : List (List Nat)) (pptrs : List Nat)
    (hap : allocProgress (2240 + (strBlock d).length) d = .ok (totalSize d, PB2, pptrs))
    (hpplen : pptrs.length = 80)
    (hppb : ∀ k, k < 80 → pptrs.getD k 0 < 4294967296)
    (hsz : totalSize d ≤ 4294967296) :
    compile_to_dt d = .ok (((List.range 80).map (recordFor d pptrs)).flatten ++
      strBlock d ++ PB2.flatten) := by
  unfold compile_to_dt
  rw [if_neg (by intro h; rw [h] at h80; simp at h80)]
  dsimp only
  rw [show (allocStrings (ENTRY_COUNT * ENTRY_SIZE) d).1 = 2240 + (strBlock d).length from by
    rw [allocStrings_cursor]; rfl]
  rw [hap]
  simp only [Bind.bind, Except.bind]
  have hts : (allocStrings (ENTRY_COUNT * ENTRY_SIZE) d).2.2.length = d.length :=
    allocStrings_ptrs_length d _
  have htv : ∀ j, j < 80 →
      (allocStrings (ENTRY_COUNT * ENTRY_SIZE) d).2.2.getD j (0, 0, 0) =
        (npSpec d j, cpSpec d j, dpSpec d j) := by
    intro j hj
    rw [allocStrings_ptrs_getD d _ j (by omega)]
    rfl
  have hziplen : (d.zip ((allocStrings (ENTRY_COUNT * ENTRY_SIZE) d).2.2.zip pptrs)).length
      = 80 := by
    rw [List.length_zip, List.length_zip, hts, hpplen, h80]
    simp
  rw [writeHeaderAll_spec _ (List.replicate (ENTRY_COUNT * ENTRY_SIZE) 0) 0
    (by rw [List.length_replicate]; rfl)
    (by intro j hj
        rw [hziplen] at hj
        rw [zip_getD d _ pptrs j (by omega) hts (by omega)]
        simpa using hidx j hj)
    (by rw [hziplen])
    (by intro j hj i hi
        rw [hziplen] at hj
        rw [zip_getD d _ pptrs j (by omega) hts (by omega)]
        simpa using hres j hj i hi)
    (by intro j hj
        rw [hziplen] at hj
        rw [zip_getD d _ pptrs j (by omega) hts (by omega), htv j hj]
        exact ⟨npSpec_lt d j (by omega) hsz, cpSpec_lt d j (by omega) hsz,
          dpSpec_lt d j (by omega) hsz, hppb j hj⟩)]
  rw [zip_map_recOf d _ pptrs h80 hts (by omega) htv, hziplen]
  rw [show (allocStrings (ENTRY_COUNT * ENTRY_SIZE) d).2.1.flatten = strBlock d from
    allocStrings_parts d _]
  rw [show (List.replicate (ENTRY_COUNT * ENTRY_SIZE) (0:Nat)).take (28 * 0) = [] from by
    simp]
  rw [show (List.replicate (ENTRY_COUNT * ENTRY_SIZE) (0:Nat)).drop (28 * 0 + 28 * 80) = []
    from by
    rw [List.drop_eq_nil_iff, List.length_replicate]
    norm_num [ENTRY_COUNT, ENTRY_SIZE]]
  simp [List.append_assoc]

lemma recordFor_eq (d : List QuestEntry) (pptrs : List Nat) (k : Nat) :
    recordFor d pptrs k =
      ((d.getD k qDefault).counter % 256) ::
        (pad11 (d.getD k qDefault).reserved ++
          (u32le (npSpec d k) ++ (u32le (cpSpec d k) ++
            (u32le (dpSpec d k) ++ u32le (pptrs.getD k 0))))) := rfl

lemma recordFor_length (d : List QuestEntry) (pptrs : List Nat) (k : Nat) :
    (recordFor d pptrs k).length = 28 :=
  headerRecordBytes_length _ _ _ _ _

lemma flatten_take_length_uniform {α : Type} (L : List (List α)) (m : Nat)
    (h : ∀ l ∈ L, l.length = m) :
    ∀ k, k ≤ L.length → ((L.take k).flatten).length = m * k := by
  induction L with
  | nil =>
    intro k hk
    simp only [List.length_nil, Nat.le_zero] at hk
    subst hk
    rfl
  | cons l L ih =>
    intro k hk
    cases k with
    | zero => rfl
    | succ k =>
      rw [List.take_succ_cons, List.flatten_cons, List.length_append,
        h l (List.mem_cons_self l L),
        ih (fun x hx => h x (List.mem_cons_of_mem l hx)) k (by simpa using hk)]
      ring

lemma records_drop (d : List QuestEntry) (pptrs : List Nat) (k : Nat) (hk : k < 80) :
    ∃ rest, (((List.range 80).map (recordFor d pptrs)).flatten).drop (28 * k) =
      recordFor d pptrs k ++ rest := by
  have hUlen : ∀ l ∈ (List.range 80).map (recordFor d pptrs), l.length = 28 := by
    intro l hl
    obtain ⟨i, hi, rfl⟩ := List.mem_map.mp hl
    exact recordFor_length d pptrs i
  have htk : ((((List.range 80).map (recordFor d pptrs)).take k).flatten).length = 28 * k :=
    flatten_take_length_uniform _ 28 hUlen k (by simp; omega)
  have hdrop : ((((List.range 80).map (recordFor d pptrs))).flatten).drop (28 * k) =
      (((List.range 80).map (recordFor d pptrs)).drop k).flatten := by
    rw [← htk]
    exact flatten_drop_at _ k
  have hcons : ((List.range 80).map (recordFor d pptrs)).drop k =
      recordFor d pptrs k :: ((List.range 80).map (recordFor d pptrs)).drop (k + 1) := by
    rw [List.drop_eq_getElem_cons (by simpa using hk)]
    congr 1
    rw [List.getElem_map, List.getElem_range]
  exact ⟨_, by rw [hdrop, hcons, List.flatten_cons]⟩

lemma DATA_record_drop (d : List QuestEntry) (pptrs : List Nat) (S : List Nat)
    (k : Nat) (hk : k < 80) :
    ∃ rest, ((((List.range 80).map (recordFor d pptrs)).flatten) ++ S).drop (28 * k) =
      recordFor d pptrs k ++ rest := by
  obtain ⟨r0, hr0⟩ := records_drop d pptrs k hk
  refine ⟨r0 ++ S, ?_⟩
  rw [List.drop_append_eq_append_drop, hr0, records_flatten_length,
    Nat.sub_eq_zero_of_le (by omega), List.drop_zero, List.append_assoc]

lemma drop_len_append {α : Type} (A B : List α) (n : Nat) (h : A.length = n) :
    (A ++ B).drop n = B := by
  rw [← h, List.drop_left]

lemma take_len_append {α : Type} (A B : List α) (n : Nat) (h : A.length = n) :
    (A ++ B).take n = A := by
  rw [← h, List.take_left]

lemma u32_drop4 (n : Nat) (W : List Nat) : (u32le n ++ W).drop 4 = W := rfl

lemma recordFor_drop12 (d : List QuestEntry) (pptrs : List Nat) (k : Nat) :
    (recordFor d pptrs k).drop 12 =
      u32le (npSpec d k) ++ (u32le (cpSpec d k) ++
        (u32le (dpSpec d k) ++ u32le (pptrs.getD k 0))) := by
  have h1 : (recordFor d pptrs k).drop 12 =
      (pad11 (d.getD k qDefault).reserved ++
        (u32le (npSpec d k) ++ (u32le (cpSpec d k) ++
          (u32le (dpSpec d k) ++ u32le (pptrs.getD k 0))))).drop 11 := rfl
  rw [h1, drop_len_append _ _ 11 (pad11_length _)]

lemma recordFor_drop16 (d : List QuestEntry) (pptrs : List Nat) (k : Nat) :
    (recordFor d pptrs k).drop 16 =
      u32le (cpSpec d k) ++ (u32le (dpSpec d k) ++ u32le (pptrs.getD k 0)) := by
  rw [show (16 : Nat) = 12 + 4 from rfl, ← List.drop_drop, recordFor_drop12, u32_drop4]

lemma recordFor_drop20 (d : List QuestEntry) (pptrs : List Nat) (k : Nat) :
    (recordFor d pptrs k).drop 20 =
      u32le (dpSpec d k) ++ u32le (pptrs.getD k 0) := by
  rw [show (20 : Nat) = 16 + 4 from rfl, ← List.drop_drop, recordFor_drop16, u32_drop4]

lemma recordFor_drop24 (d : List QuestEntry) (pptrs : List Nat) (k : Nat) :
    (recordFor d pptrs k).drop 24 = u32le (pptrs.getD k 0) := by
  rw [show (24 : Nat) = 20 + 4 from rfl, ← List.drop_drop, recordFor_drop20, u32_drop4]

lemma DATA_drop_chain (d : List QuestEntry) (pptrs : List Nat) (S : List Nat)
    (k j : Nat) (hk : k < 80) (hj : j ≤ 28) :
    ∃ rest, ((((List.range 80).map (recordFor d pptrs)).flatten) ++ S).drop (28 * k + j) =
      (recordFor d pptrs k).drop j ++ rest := by
  obtain ⟨rest, hdropk⟩ := DATA_record_drop d pptrs S k hk
  refine ⟨rest, ?_⟩
  rw [← List.drop_drop, hdropk, List.drop_append_eq_append_drop,
    Nat.sub_eq_zero_of_le (by rw [recordFor_length]; omega), List.drop_zero]

lemma readHeader_DATA (d : List QuestEntry) (pptrs : List Nat) (S : List Nat)
    (k : Nat) (hk : k < 80)
    (hnp : npSpec d k < 4294967296) (hcp : cpSpec d k < 4294967296)
    (hdp : dpSpec d k < 4294967296) (hpp : pptrs.getD k 0 < 4294967296) :
    readHeader ((((List.range 80).map (recordFor d pptrs)).flatten) ++ S) k =
      { idx := k
        counter := (d.getD k qDefault).counter % 256
        reserved := pad11 (d.getD k qDefault).reserved
        name_ptr := npSpec d k
        client_ptr := cpSpec d k
        description_ptr := dpSpec d k
        progress_ptr := pptrs.getD k 0 } := by
  obtain ⟨rest0, hd0⟩ := DATA_record_drop d pptrs S k hk
  obtain ⟨rest1, hd1⟩ := DATA_drop_chain d pptrs S k 1 hk (by omega)
  obtain ⟨rest12, hd12⟩ := DATA_drop_chain d pptrs S k 12 hk (by omega)
  obtain ⟨rest16, hd16⟩ := DATA_drop_chain d pptrs S k 16 hk (by omega)
  obtain ⟨rest20, hd20⟩ := DATA_drop_chain d pptrs S k 20 hk (by omega)
  obtain ⟨rest24, hd24⟩ := DATA_drop_chain d pptrs S k 24 hk (by omega)
  have hoff : k * ENTRY_SIZE = 28 * k := by unfold ENTRY_SIZE; ring
  unfold readHeader
  dsimp only
  rw [hoff]
  simp only [DTHeader.mk.injEq]
  refine ⟨trivial, ?_, ?_, ?_, ?_, ?_, ?_⟩
  · -- counter byte
    have h0 : ((((List.range 80).map (recordFor d pptrs)).flatten) ++ S).getD (28 * k) 0 =
        ((recordFor d pptrs k ++ rest0)).getD 0 0 := by
      have hgd := getD_drop' ((((List.range 80).map (recordFor d pptrs)).flatten) ++ S)
        (28 * k) 0
      rw [Nat.add_zero] at hgd
      rw [hgd, hd0]
    rw [h0, List.getD_append _ _ _ _ (by rw [recordFor_length]; omega), recordFor_eq,
      List.getD_cons_zero]
  · -- reserved slice
    rw [hd1]
    have hr1 : (recordFor d pptrs k).drop 1 =
        pad11 (d.getD k qDefault).reserved ++
          (u32le (npSpec d k) ++ (u32le (cpSpec d k) ++
            (u32le (dpSpec d k) ++ u32le (pptrs.getD k 0)))) := rfl
    rw [hr1, List.append_assoc,
      take_len_append _ _ 11 (pad11_length _)]
  · rw [readU32_of_u32le _ _ _ _ (by rw [hd12, recordFor_drop12, List.append_assoc]) hnp]
  · rw [readU32_of_u32le _ _ _ _ (by rw [hd16, recordFor_drop16, List.append_assoc]) hcp]
  · rw [readU32_of_u32le _ _ _ _ (by rw [hd20, recordFor_drop20, List.append_assoc]) hdp]
  · rw [readU32_of_u32le _ _ _ _ (by rw [hd24, recordFor_drop24]) hpp]

lemma totalSize_eq (d : List QuestEntry) :
    totalSize d = 2240 + (strBlock d).length + progSize d := rfl

lemma compile_valid_ok (d : List QuestEntry) (h80 : d.length = 80)
    (hidx : ∀ k, k < 80 → (d.getD k qDefault).index = k)
    (hres : ∀ k, k < 80 → ∀ i, i < 11 → (d.getD k qDefault).reserved.getD i 0 < 256)
    (hsz : totalSize d ≤ 4294967296) :
    ∃ pptrs PB,
      compile_to_dt d = .ok (((List.range 80).map (recordFor d pptrs)).flatten ++
        (strBlock d ++ PB)) ∧
      PB.length = progSize d ∧ pptrs.length = 80 ∧
      ∀ k, k < 80 → ((d.getD k qDefault).progress = [] → pptrs.getD k 0 = 0) ∧
        (pptrs.getD k 0 = 0 ∨ (2240 + (strBlock d).length ≤ pptrs.getD k 0 ∧
          pptrs.getD k 0 < totalSize d)) := by
  obtain ⟨parts, pptrs, hap, hplen, hpplen, hfacts⟩ :=
    allocProgress_ok d (2240 + (strBlock d).length) (by rw [totalSize_eq] at hsz; omega)
  have htot : 2240 + (strBlock d).length + progSize d = totalSize d := (totalSize_eq d).symm
  refine ⟨pptrs, parts.flatten, ?_, hplen, by omega, ?_⟩
  · have := compile_eq_of_alloc d h80 hidx hres parts pptrs
      (by rw [← htot]; exact hap) (by omega)
      (by intro k hk
          rcases (hfacts k (by omega)).2 with h | ⟨h1, h2⟩
          · omega
          · omega)
      hsz
    rw [this, List.append_assoc]
  · intro k hk
    obtain ⟨h1, h2⟩ := hfacts k (by omega)
    exact ⟨h1, by rw [← htot]; exact h2⟩

lemma DATA_drop_body (d : List QuestEntry) (pptrs : List Nat) (PB : List Nat) (x : Nat)
    (hx : x ≤ (strBlock d).length) :
    ((((List.range 80).map (recordFor d pptrs)).flatten) ++
      (strBlock d ++ PB)).drop (2240 + x) = (strBlock d).drop x ++ PB := by
  rw [List.drop_append_eq_append_drop, records_flatten_length,
    List.drop_eq_nil_iff.mpr (by rw [records_flatten_length]; omega),
    show 2240 + x - 2240 = x from by omega, List.nil_append,
    List.drop_append_eq_append_drop, Nat.sub_eq_zero_of_le hx, List.drop_zero]

lemma strBlock_drop_at (d : List QuestEntry) (k : Nat) (hk : k < d.length) :
    (strBlock d).drop ((strBlock (d.take k)).length) =
      encode_sjis_with_null (d.getD k qDefault).name ++
        (encode_sjis_with_null (d.getD k qDefault).client ++
          (encode_sjis_with_null (d.getD k qDefault).description ++
            strBlock (d.drop (k + 1)))) := by
  have hsplit : strBlock d = strBlock (d.take k) ++ strBlock (d.drop k) := by
    rw [← strBlock_append, List.take_append_drop]
  rw [hsplit, drop_len_append _ _ _ rfl,
    List.drop_eq_getElem_cons hk, strBlock_cons, ← List.getD_eq_getElem d qDefault hk]
  simp [entryStrBytes, List.append_assoc]

lemma DATA_drop_np (d : List QuestEntry) (pptrs : List Nat) (PB : List Nat) (k : Nat)
    (hk : k < d.length) :
    ((((List.range 80).map (recordFor d pptrs)).flatten) ++
      (strBlock d ++ PB)).drop (npSpec d k) =
      encode_sjis_with_null (d.getD k qDefault).name ++
        (encode_sjis_with_null (d.getD k qDefault).client ++
          (encode_sjis_with_null (d.getD k qDefault).description ++
            (strBlock (d.drop (k + 1)) ++ PB))) := by
  have hnp : npSpec d k = 2240 + (strBlock (d.take k)).length := rfl
  rw [hnp, DATA_drop_body d pptrs PB _ (strBlock_take_len_le d k), strBlock_drop_at d k hk]
  simp [List.append_assoc]

lemma DATA_drop_cp (d : List QuestEntry) (pptrs : List Nat) (PB : List Nat) (k : Nat)
    (hk : k < d.length) :
    ((((List.range 80).map (recordFor d pptrs)).flatten) ++
      (strBlock d ++ PB)).drop (cpSpec d k) =
      encode_sjis_with_null (d.getD k qDefault).client ++
        (encode_sjis_with_null (d.getD k qDefault).description ++
          (strBlock (d.drop (k + 1)) ++ PB)) := by
  have hcp : cpSpec d k = npSpec d k +
      (encode_sjis_with_null (d.getD k qDefault).name).length := rfl
  rw [hcp, ← List.drop_drop, DATA_drop_np d pptrs PB k hk, drop_len_append _ _ _ rfl]

lemma DATA_drop_dp (d : List QuestEntry) (pptrs : List Nat) (PB : List Nat) (k : Nat)
    (hk : k < d.length) :
    ((((List.range 80).map (recordFor d pptrs)).flatten) ++
      (strBlock d ++ PB)).drop (dpSpec d k) =
      encode_sjis_with_null (d.getD k qDefault).description ++
        (strBlock (d.drop (k + 1)) ++ PB) := by
  have hdp : dpSpec d k = cpSpec d k +
      (encode_sjis_with_null (d.getD k qDefault).client).length := rfl
  rw [hdp, ← List.drop_drop, DATA_drop_cp d pptrs PB k hk, drop_len_append _ _ _ rfl]

/-- C5: on encode, every name, client and description field of every
entry is allocated in the body region regardless of content — the empty
string is encoded as the 1-byte allocation `[0]` (terminator alone), and
the pointer stored in each entry's header is the allocation offset, at
least the header size 2240 and hence never 0. -/
theorem C5_every_field_allocated (d : List QuestEntry) (hv : ValidDoc d)
    (hsz : totalSize d ≤ 4294967296) :
    encode_sjis_with_null [] = [0] ∧
    ∃ out, compile_to_dt d = .ok out ∧
      ∀ k, k < 80 →
        (2240 ≤ readU32 out (28 * k + 12) ∧ readU32 out (28 * k + 12) ≠ 0) ∧
        (2240 ≤ readU32 out (28 * k + 16) ∧ readU32 out (28 * k + 16) ≠ 0) ∧
        (2240 ≤ readU32 out (28 * k + 20) ∧ readU32 out (28 * k + 20) ≠ 0) := by
  obtain ⟨h80, hidx, hcnt, hresv⟩ := hv
  obtain ⟨pptrs, PB, hout, hPB, hpplen, hfacts⟩ := compile_valid_ok d h80 hidx
    (fun k hk i hi => (hresv k hk).2 i hi) hsz
  refine ⟨rfl, _, hout, ?_⟩
  intro k hk
  obtain ⟨r12, hd12⟩ := DATA_drop_chain d pptrs (strBlock d ++ PB) k 12 hk (by omega)
  obtain ⟨r16, hd16⟩ := DATA_drop_chain d pptrs (strBlock d ++ PB) k 16 hk (by omega)
  obtain ⟨r20, hd20⟩ := DATA_drop_chain d pptrs (strBlock d ++ PB) k 20 hk (by omega)
  have hnp : readU32 ((((List.range 80).map (recordFor d pptrs)).flatten) ++
      (strBlock d ++ PB)) (28 * k + 12) = npSpec d k :=
    readU32_of_u32le _ _ _ _ (by rw [hd12, recordFor_drop12, List.append_assoc])
      (npSpec_lt d k (by omega) hsz)
  have hcp : readU32 ((((List.range 80).map (recordFor d pptrs)).flatten) ++
      (strBlock d ++ PB)) (28 * k + 16) = cpSpec d k :=
    readU32_of_u32le _ _ _ _ (by rw [hd16, recordFor_drop16, List.append_assoc])
      (cpSpec_lt d k (by omega) hsz)
  have hdp : readU32 ((((List.range 80).map (recordFor d pptrs)).flatten) ++
      (strBlock d ++ PB)) (28 * k + 20) = dpSpec d k :=
    readU32_of_u32le _ _ _ _ (by rw [hd20, recordFor_drop20, List.append_assoc])
      (dpSpec_lt d k (by omega) hsz)
  have e1 : npSpec d k = 2240 + (strBlock (d.take k)).length := rfl
  have e2 : cpSpec d k = npSpec d k +
      (encode_sjis_with_null (d.getD k qDefault).name).length := rfl
  have e3 : dpSpec d k = cpSpec d k +
      (encode_sjis_with_null (d.getD k qDefault).client).length := rfl
  rw [hnp, hcp, hdp]
  omega

set_option maxRecDepth 40000 in
theorem C5_every_field_allocated_witness :
    (ValidDoc sampleDoc ∧ totalSize sampleDoc ≤ 4294967296) ∧
    (encode_sjis_with_null [] = [0] ∧
      ∃ out, compile_to_dt sampleDoc = .ok out ∧
        ∀ k, k < 80 →
          (2240 ≤ readU32 out (28 * k + 12) ∧ readU32 out (28 * k + 12) ≠ 0) ∧
          (2240 ≤ readU32 out (28 * k + 16) ∧ readU32 out (28 * k + 16) ≠ 0) ∧
          (2240 ≤ readU32 out (28 * k + 20) ∧ readU32 out (28 * k + 20) ≠ 0)) :=
  ⟨⟨by decide, by decide⟩, C5_every_field_allocated sampleDoc (by decide) (by decide)⟩

/-- C10: the counter byte the encoder stores for entry `k` is the entry's
counter reduced modulo 256, and the reserved field is written as exactly
11 bytes: a shorter reserved list is zero-padded on the right and
elements beyond the 11th are ignored (`pad11`). -/
theorem C10_counter_mod_reserved_pad (d : List QuestEntry) (h80 : d.length = 80)
    (hidx : ∀ k, k < 80 → (d.getD k qDefault).index = k)
    (hres : ∀ k, k < 80 → ∀ i, i < 11 → (d.getD k qDefault).reserved.getD i 0 < 256)
    (hsz : totalSize d ≤ 4294967296) :
    ∃ out, compile_to_dt d = .ok out ∧
      ∀ k, k < 80 →
        out.getD (28 * k) 0 = (d.getD k qDefault).counter % 256 ∧
        (out.drop (28 * k + 1)).take 11 = pad11 (d.getD k qDefault).reserved := by
  obtain ⟨pptrs, PB, hout, hPB, hpplen, hfacts⟩ := compile_valid_ok d h80 hidx hres hsz
  refine ⟨_, hout, ?_⟩
  intro k hk
  obtain ⟨r0, hd0⟩ := DATA_record_drop d pptrs (strBlock d ++ PB) k hk
  obtain ⟨r1, hd1⟩ := DATA_drop_chain d pptrs (strBlock d ++ PB) k 1 hk (by omega)
  constructor
  · have h0 : ((((List.range 80).map (recordFor d pptrs)).flatten) ++
        (strBlock d ++ PB)).getD (28 * k) 0 = ((recordFor d pptrs k ++ r0)).getD 0 0 := by
      have hgd := getD_drop' ((((List.range 80).map (recordFor d pptrs)).flatten) ++
        (strBlock d ++ PB)) (28 * k) 0
      rw [Nat.add_zero] at hgd
      rw [hgd, hd0]
    rw [h0, List.getD_append _ _ _ _ (by rw [recordFor_length]; omega), recordFor_eq,
      List.getD_cons_zero]
  · rw [hd1]
    have hr1 : (recordFor d pptrs k).drop 1 =
        pad11 (d.getD k qDefault).reserved ++
          (u32le (npSpec d k) ++ (u32le (cpSpec d k) ++
            (u32le (dpSpec d k) ++ u32le (pptrs.getD k 0)))) := rfl
    rw [hr1, List.append_assoc, take_len_append _ _ 11 (pad11_length _)]

set_option maxRecDepth 40000 in
theorem C10_counter_mod_reserved_pad_witness :
    (shortResDoc.length = 80 ∧
      (∀ k, k < 80 → (shortResDoc.getD k qDefault).index = k) ∧
      (∀ k, k < 80 → ∀ i, i < 11 →
        (shortResDoc.getD k qDefault).reserved.getD i 0 < 256) ∧
      totalSize shortResDoc ≤ 4294967296) ∧
    ∃ out, compile_to_dt shortResDoc = .ok out ∧
      ∀ k, k < 80 →
        out.getD (28 * k) 0 = (shortResDoc.getD k qDefault).counter % 256 ∧
        (out.drop (28 * k + 1)).take 11 = pad11 (shortResDoc.getD k qDefault).reserved :=
  ⟨⟨by decide, by decide, by decide, by decide⟩,
    C10_counter_mod_reserved_pad shortResDoc (by decide) (by decide) (by decide) (by decide)⟩

/-- C7: an entry with an empty progress sequence is encoded with progress
pointer 0 (no progress data allocated for it), and decoding the encoder's
output yields an empty progress sequence for that entry. -/
theorem C7_empty_progress_roundtrip (d : List QuestEntry) (hv : ValidDoc d)
    (hsz : totalSize d ≤ 4294967296) (k : Nat) (hk : k < 80)
    (hemp : (d.getD k qDefault).progress = []) :
    ∃ out es, compile_to_dt d = .ok out ∧ readU32 out (28 * k + 24) = 0 ∧
      parse_dt_file out = .ok es ∧ (es.getD k qDefault).progress = [] := by
  obtain ⟨h80, hidx, hcnt, hresv⟩ := hv
  obtain ⟨pptrs, PB, hout, hPB, hpplen, hfacts⟩ := compile_valid_ok d h80 hidx
    (fun k hk i hi => (hresv k hk).2 i hi) hsz
  have hpp0 : pptrs.getD k 0 = 0 := (hfacts k hk).1 hemp
  obtain ⟨r24, hd24⟩ := DATA_drop_chain d pptrs (strBlock d ++ PB) k 24 hk (by omega)
  have hppread : readU32 ((((List.range 80).map (recordFor d pptrs)).flatten) ++
      (strBlock d ++ PB)) (28 * k + 24) = pptrs.getD k 0 :=
    readU32_of_u32le _ _ _ _ (by rw [hd24, recordFor_drop24]) (by rw [hpp0]; omega)
  have hlen : 2240 ≤ ((((List.range 80).map (recordFor d pptrs)).flatten) ++
      (strBlock d ++ PB)).length := by
    rw [List.length_append, records_flatten_length]
    omega
  refine ⟨_, _, hout, by rw [hppread, hpp0], parse_ok_of_le _ hlen, ?_⟩
  rw [getD_range_map _ ENTRY_COUNT k qDefault (by unfold ENTRY_COUNT; omega)]
  dsimp only
  show parseProgress _ _ k = []
  unfold parseProgress
  rw [getD_range_map _ ENTRY_COUNT k default (by unfold ENTRY_COUNT; omega)]
  have hpbound : ∀ j, j < 80 → pptrs.getD j 0 < 4294967296 := by
    intro j hj
    rcases (hfacts j hj).2 with h | ⟨h1, h2⟩ <;> omega
  rw [readHeader_DATA d pptrs (strBlock d ++ PB) k hk
    (npSpec_lt d k (by omega) hsz) (cpSpec_lt d k (by omega) hsz)
    (dpSpec_lt d k (by omega) hsz) (hpbound k hk)]
  rw [if_pos hpp0]

set_option maxRecDepth 40000 in
theorem C7_empty_progress_roundtrip_witness :
    (ValidDoc sampleDoc ∧ totalSize sampleDoc ≤ 4294967296 ∧ (0 : Nat) < 80 ∧
      (sampleDoc.getD 0 qDefault).progress = []) ∧
    ∃ out es, compile_to_dt sampleDoc = .ok out ∧ readU32 out (28 * 0 + 24) = 0 ∧
      parse_dt_file out = .ok es ∧ (es.getD 0 qDefault).progress = [] :=
  ⟨⟨by decide, by decide, by omega, by decide⟩,
    C7_empty_progress_roundtrip sampleDoc (by decide) (by decide) 0 (by omega) (by decide)⟩

/-! ## Round-trip machinery -/

lemma pad11_of_len11 (xs : List Nat) (h : xs.length = 11) : pad11 xs = xs := by
  apply List.ext_getElem
  · rw [pad11_length, h]
  · intro i h1 h2
    rw [pad11_length] at h1
    simp only [pad11, List.getElem_map, List.getElem_range]
    rw [List.getD_eq_getElem xs 0 (by omega)]

lemma countP_le_one_decomp {α : Type} (p : α → Bool) (l : List α) :
    l.countP p ≤ 1 →
    (∀ x ∈ l, ¬ p x) ∨ ∃ l₁ a l₂, l = l₁ ++ a :: l₂ ∧ p a ∧
      (∀ x ∈ l₁, ¬ p x) ∧ (∀ x ∈ l₂, ¬ p x) := by
  induction l with
  | nil => intro _; exact Or.inl (by simp)
  | cons a l ih =>
    intro h
    rw [List.countP_cons] at h
    by_cases hpa : p a
    · rw [if_pos hpa] at h
      have hz : l.countP p = 0 := by omega
      refine Or.inr ⟨[], a, l, by simp, hpa, by simp, ?_⟩
      intro x hx
      exact (List.countP_eq_zero.mp hz) x hx
    · rw [if_neg hpa] at h
      simp only [Nat.add_zero] at h
      rcases ih h with hall | ⟨l₁, b, l₂, rfl, hb, h1, h2⟩
      · refine Or.inl ?_
        intro x hx
        rcases List.mem_cons.mp hx with rfl | hx
        · exact hpa
        · exact hall x hx
      · refine Or.inr ⟨a :: l₁, b, l₂, by simp, hb, ?_, h2⟩
        intro x hx
        rcases List.mem_cons.mp hx with rfl | hx
        · exact hpa
        · exact h1 x hx

lemma flatten_drop_elem {α : Type} (L : List (List α)) (j : Nat) (hj : j < L.length) :
    L.flatten.drop ((L.take j).flatten.length) = L[j] ++ (L.drop (j + 1)).flatten := by
  rw [flatten_drop_at, List.drop_eq_getElem_cons hj, List.flatten_cons]

lemma readProgressSlots_eq (out : List Nat) (base : Nat) (ts : List Text)
    (h : ∀ j, j < ts.length → base + j * 4 + 4 ≤ out.length ∧
      read_cstring_sjis out (readU32 out (base + j * 4)) = ts.getD j []) :
    ∀ m j, m + j = ts.length → readProgressSlots out base m j = ts.drop j := by
  intro m
  induction m with
  | zero =>
    intro j hj
    rw [show j = ts.length from by omega, List.drop_length]
    rfl
  | succ m ih =>
    intro j hj
    obtain ⟨hb, hr⟩ := h j (by omega)
    unfold readProgressSlots
    rw [if_pos hb, hr, ih (j + 1) (by omega),
      List.drop_eq_getElem_cons (by omega : j < ts.length),
      List.getD_eq_getElem ts [] (by omega : j < ts.length)]

lemma roundtrip_core (d : List QuestEntry) (pptrs PB : List Nat)
    (h80 : d.length = 80)
    (hidx : ∀ k, k < 80 → (d.getD k qDefault).index = k)
    (hcnt : ∀ k, k < 80 → (d.getD k qDefault).counter < 256)
    (hresv : ∀ k, k < 80 → (d.getD k qDefault).reserved.length = 11)
    (hstable : docTextsStable d)
    (hsz : totalSize d ≤ 4294967296)
    (hppb : ∀ k, k < 80 → pptrs.getD k 0 < 4294967296)
    (hprog : ∀ k, k < 80 →
      parseProgress ((((List.range 80).map (recordFor d pptrs)).flatten) ++
          (strBlock d ++ PB))
        ((List.range ENTRY_COUNT).map (readHeader
          ((((List.range 80).map (recordFor d pptrs)).flatten) ++ (strBlock d ++ PB)))) k =
        (d.getD k qDefault).progress) :
    ∃ es, parse_dt_file ((((List.range 80).map (recordFor d pptrs)).flatten) ++
      (strBlock d ++ PB)) = .ok es ∧ es.map stripPtrs = d.map stripPtrs := by
  refine ⟨_, parse_ok_of_le _ (by rw [List.length_append, records_flatten_length]; omega), ?_⟩
  apply List.ext_getElem
  · simp only [List.length_map, List.length_range, h80]
    rfl
  · intro i h1 h2
    have hi : i < 80 := by
      simp only [List.length_map, List.length_range] at h1
      simpa [ENTRY_COUNT] using h1
    rw [List.getElem_map, List.getElem_map, List.getElem_map, List.getElem_range]
    dsimp only
    rw [getD_range_map _ ENTRY_COUNT i default (by unfold ENTRY_COUNT; omega)]
    rw [readHeader_DATA d pptrs (strBlock d ++ PB) i hi
      (npSpec_lt d i (by omega) hsz) (cpSpec_lt d i (by omega) hsz)
      (dpSpec_lt d i (by omega) hsz) (hppb i hi)]
    rw [hprog i hi]
    obtain ⟨hsn, hsc, hsd, _⟩ := hstable i hi
    have hnpne : npSpec d i ≠ 0 := by
      have : npSpec d i = 2240 + (strBlock (d.take i)).length := rfl
      omega
    have hcpne : cpSpec d i ≠ 0 := by
      have h1' : npSpec d i = 2240 + (strBlock (d.take i)).length := rfl
      have h2' : cpSpec d i = npSpec d i +
        (encode_sjis_with_null (d.getD i qDefault).name).length := rfl
      omega
    have hdpne : dpSpec d i ≠ 0 := by
      have h1' : npSpec d i = 2240 + (strBlock (d.take i)).length := rfl
      have h2' : cpSpec d i = npSpec d i +
        (encode_sjis_with_null (d.getD i qDefault).name).length := rfl
      have h3' : dpSpec d i = cpSpec d i +
        (encode_sjis_with_null (d.getD i qDefault).client).length := rfl
      omega
    have hname := read_cstring_at_chunk _ (npSpec d i) (d.getD i qDefault).name _
      (DATA_drop_np d pptrs PB i (by omega)) hnpne hsn
    have hclient := read_cstring_at_chunk _ (cpSpec d i) (d.getD i qDefault).client _
      (DATA_drop_cp d pptrs PB i (by omega)) hcpne hsc
    have hdesc := read_cstring_at_chunk _ (dpSpec d i) (d.getD i qDefault).description _
      (DATA_drop_dp d pptrs PB i (by omega)) hdpne hsd
    rw [hname, hclient, hdesc]
    rw [← List.getD_eq_getElem d qDefault (by omega : i < d.length)]
    simp [stripPtrs, QuestEntry.mk.injEq, hidx i hi, Nat.mod_eq_of_lt (hcnt i hi),
      pad11_of_len11 _ (hresv i hi)]
    simp only [← List.getD_eq_getElem?_getD]
    exact ⟨(hidx i hi).symm, hcnt i hi, pad11_of_len11 _ (hresv i hi)⟩

lemma u32flatten_drop (ptrs : List Nat) (j : Nat) (hj : j < ptrs.length) :
    ∃ rest, ((ptrs.map u32le).flatten).drop (4 * j) = u32le (ptrs.getD j 0) ++ rest := by
  have hUlen : ∀ l ∈ ptrs.map u32le, l.length = 4 := by
    intro l hl
    obtain ⟨x, hx, rfl⟩ := List.mem_map.mp hl
    exact u32le_length x
  have htk : (((ptrs.map u32le).take j).flatten).length = 4 * j :=
    flatten_take_length_uniform _ 4 hUlen j (by simpa using Nat.le_of_lt hj)
  refine ⟨((ptrs.map u32le).drop (j + 1)).flatten, ?_⟩
  rw [← htk, flatten_drop_elem _ j (by simpa using hj)]
  congr 1
  rw [List.getElem_map, List.getD_eq_getElem ptrs 0 hj]

lemma parseProgress_DATA_zero (d : List QuestEntry) (pptrs PB : List Nat) (k : Nat)
    (hk : k < 80) (h80 : d.length = 80) (hsz : totalSize d ≤ 4294967296)
    (hpp0 : pptrs.getD k 0 = 0) :
    parseProgress ((((List.range 80).map (recordFor d pptrs)).flatten) ++
        (strBlock d ++ PB))
      ((List.range ENTRY_COUNT).map (readHeader
        ((((List.range 80).map (recordFor d pptrs)).flatten) ++ (strBlock d ++ PB)))) k =
      [] := by
  unfold parseProgress
  rw [getD_range_map _ ENTRY_COUNT k default (by unfold ENTRY_COUNT; omega)]
  rw [readHeader_DATA d pptrs (strBlock d ++ PB) k hk
    (npSpec_lt d k (by omega) hsz) (cpSpec_lt d k (by omega) hsz)
    (dpSpec_lt d k (by omega) hsz) (by rw [hpp0]; omega)]
  rw [if_pos hpp0]

lemma progSize_append (a b : List QuestEntry) :
    progSize (a ++ b) = progSize a + progSize b := by
  simp [progSize]

lemma getD_mem_of_lt {α : Type} {l : List α} {n : Nat} {d : α} (h : n < l.length) :
    l.getD n d ∈ l := by
  rw [List.getD_eq_getElem l d h]
  exact List.getElem_mem h

lemma parseProgress_DATA_single
    (pre post : List QuestEntry) (e : QuestEntry) (d : List QuestEntry)
    (hd : d = pre ++ e :: post)
    (hne : ¬ e.progress = []) (h80 : d.length = 80)
    (hstab : ∀ t ∈ e.progress, cstringStable t)
    (hsz : totalSize d ≤ 4294967296)
    (hps : progSize d = entryProgSize e)
    (pptrs : List Nat)
    (hpp : pptrs = List.replicate pre.length 0 ++
      (2240 + (strBlock d).length + (progTexts e).length) ::
        List.replicate post.length 0)
    (PB : List Nat)
    (hPB : PB = progTexts e ++
      ((allocTexts (2240 + (strBlock d).length) e.progress).2.2.map u32le).flatten) :
    parseProgress ((((List.range 80).map (recordFor d pptrs)).flatten) ++
        (strBlock d ++ PB))
      ((List.range ENTRY_COUNT).map (readHeader
        ((((List.range 80).map (recordFor d pptrs)).flatten) ++ (strBlock d ++ PB))))
      pre.length = e.progress := by
  have hK : 1 ≤ e.progress.length := by
    cases hpq : e.progress with
    | nil => exact absurd hpq hne
    | cons a l => simp [hpq]
  have hi : pre.length < 80 := by
    rw [hd] at h80
    simp only [List.length_append, List.length_cons] at h80
    omega
  have hA : pptrs.getD pre.length 0 =
      2240 + (strBlock d).length + (progTexts e).length := by
    rw [hpp, List.getD_append_right _ _ _ _ (by rw [List.length_replicate]),
      List.length_replicate, Nat.sub_self, List.getD_cons_zero]
  have hnext : pptrs.getD (pre.length + 1) 0 = 0 := by
    rw [hpp, List.getD_append_right _ _ _ _ (by rw [List.length_replicate]; omega),
      List.length_replicate, show pre.length + 1 - pre.length = 1 from by omega,
      List.getD_cons_succ]
    exact getD_replicate_zero _ _
  have harrlen : (((allocTexts (2240 + (strBlock d).length) e.progress).2.2.map
      u32le).flatten).length = 4 * e.progress.length := by
    rw [u32_flatten_length, allocTexts_ptrs_length]
  have hPBlen : PB.length = (progTexts e).length + 4 * e.progress.length := by
    rw [hPB, List.length_append, harrlen]
  have hL : ((((List.range 80).map (recordFor d pptrs)).flatten) ++
      (strBlock d ++ PB)).length =
      2240 + (strBlock d).length + (progTexts e).length + 4 * e.progress.length := by
    rw [List.length_append, records_flatten_length, List.length_append, hPBlen]
    omega
  have hLtot : 2240 + (strBlock d).length + (progTexts e).length +
      4 * e.progress.length = totalSize d := by
    rw [totalSize_eq, hps, entryProgSize, if_neg hne]
    omega
  have hAlt : pptrs.getD pre.length 0 < 4294967296 := by
    rw [hA]
    omega
  unfold parseProgress
  rw [getD_range_map _ ENTRY_COUNT pre.length default (by unfold ENTRY_COUNT; omega)]
  rw [readHeader_DATA d pptrs (strBlock d ++ PB) pre.length hi
    (npSpec_lt d pre.length (by omega) hsz) (cpSpec_lt d pre.length (by omega) hsz)
    (dpSpec_lt d pre.length (by omega) hsz) hAlt]
  dsimp only
  rw [if_neg (by rw [hA]; omega)]
  -- resolve the size computation to 4 * |progress|
  have hszeq : (if pre.length < ENTRY_COUNT - 1 then
        if pptrs.getD pre.length 0 <
              (((List.range ENTRY_COUNT).map (readHeader
                ((((List.range 80).map (recordFor d pptrs)).flatten) ++
                  (strBlock d ++ PB)))).getD (pre.length + 1) default).progress_ptr ∧
            (((List.range ENTRY_COUNT).map (readHeader
              ((((List.range 80).map (recordFor d pptrs)).flatten) ++
                (strBlock d ++ PB)))).getD (pre.length + 1) default).progress_ptr ≤
              ((((List.range 80).map (recordFor d pptrs)).flatten) ++
                (strBlock d ++ PB)).length then
          (((List.range ENTRY_COUNT).map (readHeader
            ((((List.range 80).map (recordFor d pptrs)).flatten) ++
              (strBlock d ++ PB)))).getD (pre.length + 1) default).progress_ptr -
            pptrs.getD pre.length 0
        else if pptrs.getD pre.length 0 <
            ((((List.range 80).map (recordFor d pptrs)).flatten) ++
              (strBlock d ++ PB)).length then
          ((((List.range 80).map (recordFor d pptrs)).flatten) ++
            (strBlock d ++ PB)).length - pptrs.getD pre.length 0
        else 0
      else if pptrs.getD pre.length 0 <
          ((((List.range 80).map (recordFor d pptrs)).flatten) ++
            (strBlock d ++ PB)).length then
        ((((List.range 80).map (recordFor d pptrs)).flatten) ++
          (strBlock d ++ PB)).length - pptrs.getD pre.length 0
      else 0) = 4 * e.progress.length := by
    by_cases hlast : pre.length < ENTRY_COUNT - 1
    · rw [if_pos hlast]
      have hnv : (((List.range ENTRY_COUNT).map (readHeader
          ((((List.range 80).map (recordFor d pptrs)).flatten) ++
            (strBlock d ++ PB)))).getD (pre.length + 1) default).progress_ptr = 0 := by
        rw [getD_range_map _ ENTRY_COUNT (pre.length + 1) default
          (by unfold ENTRY_COUNT at hlast ⊢; omega)]
        rw [readHeader_DATA d pptrs (strBlock d ++ PB) (pre.length + 1)
          (by unfold ENTRY_COUNT at hlast; omega)
          (npSpec_lt d (pre.length + 1) (by unfold ENTRY_COUNT at hlast; omega) hsz)
          (cpSpec_lt d (pre.length + 1) (by unfold ENTRY_COUNT at hlast; omega) hsz)
          (dpSpec_lt d (pre.length + 1) (by unfold ENTRY_COUNT at hlast; omega) hsz)
          (by rw [hnext]; omega)]
        exact hnext
      rw [hnv, if_neg (by omega), if_pos (by rw [hA, hL]; omega), hA, hL]
      omega
    · rw [if_neg hlast, if_pos (by rw [hA, hL]; omega), hA, hL]
      omega
  rw [hszeq, Nat.mul_div_cancel_left _ (by omega : 0 < 4)]
  -- the slot loop returns exactly the progress strings
  have hdropPB : ((((List.range 80).map (recordFor d pptrs)).flatten) ++
      (strBlock d ++ PB)).drop (2240 + (strBlock d).length) = PB := by
    rw [DATA_drop_body d pptrs PB (strBlock d).length (by omega), List.drop_length,
      List.nil_append]
  have hdropA : ((((List.range 80).map (recordFor d pptrs)).flatten) ++
      (strBlock d ++ PB)).drop (2240 + (strBlock d).length + (progTexts e).length) =
      ((allocTexts (2240 + (strBlock d).length) e.progress).2.2.map u32le).flatten := by
    rw [← List.drop_drop, hdropPB, hPB, drop_len_append _ _ _ rfl]
  rw [hA]
  rw [readProgressSlots_eq _ _ e.progress ?hslots e.progress.length 0 (by omega),
    List.drop_zero]
  case hslots =>
    intro j hj
    have hjlt : j < (allocTexts (2240 + (strBlock d).length) e.progress).2.2.length := by
      rw [allocTexts_ptrs_length]
      omega
    obtain ⟨rest, hrest⟩ :=
      u32flatten_drop ((allocTexts (2240 + (strBlock d).length) e.progress).2.2) j hjlt
    have hptrj : (allocTexts (2240 + (strBlock d).length) e.progress).2.2.getD j 0 =
        2240 + (strBlock d).length +
          (((e.progress.take j).map encode_sjis_with_null).flatten).length :=
      allocTexts_ptrs_getD e.progress _ j (by omega)
    have hXle : (((e.progress.take j).map encode_sjis_with_null).flatten).length ≤
        (progTexts e).length := by
      unfold progTexts
      rw [List.map_take]
      conv_rhs => rw [show e.progress.map encode_sjis_with_null =
        (e.progress.map encode_sjis_with_null).take j ++
          (e.progress.map encode_sjis_with_null).drop j from
        (List.take_append_drop _ _).symm]
      rw [List.flatten_append, List.length_append]
      omega
    constructor
    · rw [hL]
      omega
    · have hread : readU32 ((((List.range 80).map (recordFor d pptrs)).flatten) ++
          (strBlock d ++ PB))
          (2240 + (strBlock d).length + (progTexts e).length + j * 4) =
          (allocTexts (2240 + (strBlock d).length) e.progress).2.2.getD j 0 := by
        apply readU32_of_u32le _ _ _ rest
        · rw [show 2240 + (strBlock d).length + (progTexts e).length + j * 4 =
            (2240 + (strBlock d).length + (progTexts e).length) + 4 * j from by ring,
            ← List.drop_drop, hdropA, hrest]
        · have := allocTexts_ptrs_lt e.progress (2240 + (strBlock d).length) _
            (@getD_mem_of_lt _ _ _ 0 hjlt)
          rw [allocTexts_cursor] at this
          have hpt : ((e.progress.map encode_sjis_with_null).flatten).length =
            (progTexts e).length := rfl
          omega
      rw [hread, hptrj]
      -- dereference the j-th progress string
      have hdropstr : ((((List.range 80).map (recordFor d pptrs)).flatten) ++
          (strBlock d ++ PB)).drop
            (2240 + (strBlock d).length +
              (((e.progress.take j).map encode_sjis_with_null).flatten).length) =
          encode_sjis_with_null (e.progress.getD j []) ++
            (((e.progress.map encode_sjis_with_null).drop (j + 1)).flatten ++
              ((allocTexts (2240 + (strBlock d).length) e.progress).2.2.map
                u32le).flatten) := by
        rw [← List.drop_drop, hdropPB, hPB]
        rw [List.drop_append_eq_append_drop, Nat.sub_eq_zero_of_le (by
          have hpt : (progTexts e).length =
            ((e.progress.map encode_sjis_with_null).flatten).length := rfl
          rw [hpt] at hXle
          exact hXle), List.drop_zero]
        rw [List.map_take]
        show ((e.progress.map encode_sjis_with_null).flatten).drop _ ++ _ = _
        rw [flatten_drop_elem _ j (by rw [List.length_map]; omega)]
        rw [List.getElem_map, ← List.getD_eq_getElem e.progress [] (by omega),
          List.append_assoc]
      exact read_cstring_at_chunk _ _ _ _ hdropstr (by omega)
        (hstab _ (getD_mem_of_lt (by omega)))

/-- C1 (amended): for every valid document `d` with exactly 80 entries —
positional indices, byte-valued counter, 11-byte reserved — in which
every text field survives one store/load cycle of the transcoder, at most
one entry has a non-empty progress sequence, and the encoded size fits in
32 bits, decoding the bytes produced by encoding `d` succeeds and yields
a document equal to `d` in every field except the diagnostic pointers
block. -/
theorem C1_roundtrip_amended (d : List QuestEntry)
    (hv : ValidDoc d) (hstable : docTextsStable d)
    (hone : atMostOneProgress d) (hsz : totalSize d ≤ 4294967296) :
    ∃ out es, compile_to_dt d = .ok out ∧ parse_dt_file out = .ok es ∧
      es.map stripPtrs = d.map stripPtrs := by
  obtain ⟨h80, hidx, hcnt, hresv⟩ := hv
  have hres' : ∀ k, k < 80 → ∀ i, i < 11 →
      (d.getD k qDefault).reserved.getD i 0 < 256 :=
    fun k hk i hi => (hresv k hk).2 i hi
  have hresl : ∀ k, k < 80 → (d.getD k qDefault).reserved.length = 11 :=
    fun k hk => (hresv k hk).1
  rcases countP_le_one_decomp _ d hone with
    hall | ⟨pre, e, post, hdec, hpe, hpree, hposte⟩
  · -- every entry has empty progress
    have hallemp : ∀ x ∈ d, x.progress = [] := by
      intro x hx
      simpa using hall x hx
    have hps0 : progSize d = 0 := progSize_all_empty d hallemp
    have hap' : allocProgress (2240 + (strBlock d).length) d =
        .ok (totalSize d, [], List.replicate 80 0) := by
      rw [allocProgress_all_empty d hallemp (2240 + (strBlock d).length), h80,
        totalSize_eq, hps0, Nat.add_zero]
    have hout := compile_eq_of_alloc d h80 hidx hres' [] (List.replicate 80 0) hap'
      (List.length_replicate _ _)
      (fun k _ => by rw [getD_replicate_zero]; omega) hsz
    have hcore := roundtrip_core d (List.replicate 80 0) ([] : List Nat) h80 hidx hcnt
      hresl hstable hsz (fun k _ => by rw [getD_replicate_zero]; omega) ?_
    · obtain ⟨es, hes, hstrip⟩ := hcore
      refine ⟨_, es, ?_, hes, hstrip⟩
      rw [hout, List.flatten_nil, List.append_assoc]
    · intro k hk
      rw [parseProgress_DATA_zero d (List.replicate 80 0) [] k hk h80 hsz
        (getD_replicate_zero _ _)]
      have : d.getD k qDefault ∈ d := @getD_mem_of_lt _ _ _ qDefault (by omega)
      exact (hallemp _ this).symm
  · -- exactly one entry, e at position pre.length, has progress data
    have hne : ¬ e.progress = [] := by simpa using hpe
    have hK : 1 ≤ e.progress.length := by
      cases hpq : e.progress with
      | nil => exact absurd hpq hne
      | cons a l => simp [hpq]
    have hpreemp : ∀ x ∈ pre, x.progress = [] := fun x hx => by simpa using hpree x hx
    have hpostemp : ∀ x ∈ post, x.progress = [] := fun x hx => by simpa using hposte x hx
    have hlen80 : pre.length + (post.length + 1) = 80 := by
      rw [hdec] at h80
      simp only [List.length_append, List.length_cons] at h80
      omega
    have hps : progSize d = entryProgSize e := by
      rw [hdec, progSize_append, progSize_all_empty pre hpreemp, progSize_cons,
        progSize_all_empty post hpostemp]
      omega
    have hcur : (allocTexts (2240 + (strBlock d).length) e.progress).1 =
        2240 + (strBlock d).length + (progTexts e).length := by
      rw [allocTexts_cursor]
      rfl
    have htotB : 2240 + (strBlock d).length + (progTexts e).length +
        4 * e.progress.length = totalSize d := by
      rw [totalSize_eq, hps, entryProgSize, if_neg hne]
      omega
    have hlt : ∀ x ∈ (allocTexts (2240 + (strBlock d).length) e.progress).2.2,
        x < 4294967296 := by
      intro x hx
      have := allocTexts_ptrs_lt e.progress (2240 + (strBlock d).length) x hx
      rw [hcur] at this
      omega
    have hrec : allocProgress ((allocTexts (2240 + (strBlock d).length) e.progress).1 +
        4 * e.progress.length) post =
        .ok ((allocTexts (2240 + (strBlock d).length) e.progress).1 +
          4 * e.progress.length, [], List.replicate post.length 0) :=
      allocProgress_all_empty post hpostemp _
    have hconseq := allocProgress_cons_nonempty (2240 + (strBlock d).length) e post
      hne hlt _ hrec
    have hfull := allocProgress_pre_empty pre hpreemp (e :: post)
      (2240 + (strBlock d).length) _ hconseq
    rw [← hdec] at hfull
    have hap' : allocProgress (2240 + (strBlock d).length) d =
        .ok (totalSize d,
          (allocTexts (2240 + (strBlock d).length) e.progress).2.1 ++
            [((allocTexts (2240 + (strBlock d).length) e.progress).2.2.map u32le).flatten],
          List.replicate pre.length 0 ++
            (2240 + (strBlock d).length + (progTexts e).length) ::
              List.replicate post.length 0) := by
      rw [hfull]
      dsimp only
      rw [hcur, htotB]
    have hget0 : ∀ k, k ≠ pre.length →
        (List.replicate pre.length 0 ++
          (2240 + (strBlock d).length + (progTexts e).length) ::
            List.replicate post.length 0).getD k 0 = 0 := by
      intro k hkne
      by_cases hkp : k < pre.length
      · rw [List.getD_append _ _ _ _ (by rw [List.length_replicate]; omega)]
        exact getD_replicate_zero _ _
      · rw [List.getD_append_right _ _ _ _ (by rw [List.length_replicate]; omega),
          List.length_replicate,
          show k - pre.length = (k - pre.length - 1) + 1 from by omega,
          List.getD_cons_succ]
        exact getD_replicate_zero _ _
    have hgetA : (List.replicate pre.length 0 ++
        (2240 + (strBlock d).length + (progTexts e).length) ::
          List.replicate post.length 0).getD pre.length 0 =
        2240 + (strBlock d).length + (progTexts e).length := by
      rw [List.getD_append_right _ _ _ _ (by rw [List.length_replicate]),
        List.length_replicate, Nat.sub_self, List.getD_cons_zero]
    have hppb : ∀ k, k < 80 →
        (List.replicate pre.length 0 ++
          (2240 + (strBlock d).length + (progTexts e).length) ::
            List.replicate post.length 0).getD k 0 < 4294967296 := by
      intro k _
      by_cases hke : k = pre.length
      · rw [hke, hgetA]
        omega
      · rw [hget0 k hke]
        omega
    have hout := compile_eq_of_alloc d h80 hidx hres' _ _ hap'
      (by rw [List.length_append, List.length_replicate, List.length_cons,
        List.length_replicate]; omega)
      hppb hsz
    have hPBeq : ((allocTexts (2240 + (strBlock d).length) e.progress).2.1 ++
        [((allocTexts (2240 + (strBlock d).length) e.progress).2.2.map u32le).flatten]).flatten =
        progTexts e ++
          ((allocTexts (2240 + (strBlock d).length) e.progress).2.2.map u32le).flatten := by
      rw [List.flatten_append, allocTexts_parts]
      simp [progTexts]
    have hde : d.getD pre.length qDefault = e := by
      rw [hdec, List.getD_append_right _ _ _ _ (le_refl pre.length), Nat.sub_self,
        List.getD_cons_zero]
    have hdk : ∀ k, k < 80 → ¬ k = pre.length → (d.getD k qDefault).progress = [] := by
      intro k hk hkne
      rw [hdec]
      by_cases hkp : k < pre.length
      · rw [List.getD_append _ _ _ _ (by omega)]
        exact hpreemp _ (@getD_mem_of_lt _ _ _ qDefault (by omega))
      · rw [List.getD_append_right _ _ _ _ (by omega),
          show k - pre.length = (k - pre.length - 1) + 1 from by omega,
          List.getD_cons_succ]
        exact hpostemp _ (@getD_mem_of_lt _ _ _ qDefault (by omega))
    have hcore := roundtrip_core d
      (List.replicate pre.length 0 ++
        (2240 + (strBlock d).length + (progTexts e).length) ::
          List.replicate post.length 0)
      (((allocTexts (2240 + (strBlock d).length) e.progress).2.1 ++
        [((allocTexts (2240 + (strBlock d).length) e.progress).2.2.map
          u32le).flatten]).flatten)
      h80 hidx hcnt hresl hstable hsz hppb ?_
    · obtain ⟨es, hes, hstrip⟩ := hcore
      refine ⟨_, es, ?_, hes, hstrip⟩
      rw [hout, List.append_assoc]
    · intro k hk
      by_cases hke : k = pre.length
      · subst hke
        rw [hde]
        exact parseProgress_DATA_single pre post e d hdec hne h80
          (fun t ht => by
            have := (hstable pre.length hk).2.2.2
            rw [hde] at this
            exact this t ht)
          hsz hps _ rfl _ hPBeq
      · rw [parseProgress_DATA_zero d _ _ k hk h80 hsz (hget0 k hke),
          hdk k hk hke]

set_option maxRecDepth 40000 in
theorem C1_roundtrip_amended_witness :
    (ValidDoc sampleDoc ∧ docTextsStable sampleDoc ∧ atMostOneProgress sampleDoc ∧
      totalSize sampleDoc ≤ 4294967296) ∧
    ∃ out es, compile_to_dt sampleDoc = .ok out ∧ parse_dt_file out = .ok es ∧
      es.map stripPtrs = sampleDoc.map stripPtrs :=
  ⟨⟨by decide, by decide, by decide, by decide⟩,
    C1_roundtrip_amended sampleDoc (by decide) (by decide) (by decide) (by decide)⟩

lemma getD_map_of_lt {α β : Type} (f : α → β) (l : List α) (n : Nat) (da : α) (db : β)
    (h : n < l.length) : (l.map f).getD n db = f (l.getD n da) := by
  rw [List.getD_eq_getElem _ _ (by simpa using h), List.getElem_map,
    List.getD_eq_getElem _ _ h]

set_option maxRecDepth 40000 in
lemma cexDoc_len : cexDoc.length = 80 := by decide

set_option maxRecDepth 40000 in
lemma cexDoc_strBlock_len : (strBlock cexDoc).length = 240 := by decide

set_option maxRecDepth 40000 in
lemma cexDoc_totalSize : totalSize cexDoc = 2495 := by decide

set_option maxRecDepth 40000 in
lemma cexDoc_sz : totalSize cexDoc ≤ 4294967296 := by decide

set_option maxRecDepth 40000 in
lemma cexDoc_alloc : allocProgress 2480 cexDoc =
    .ok (2495, [[65, 0], [176, 9, 0, 0], [65, 65, 65, 65, 0], [182, 9, 0, 0]], cexPtrs) := by
  rfl

set_option maxRecDepth 40000 in
lemma cexOut_compile : compile_to_dt cexDoc = .ok cexOut := by
  have hap : allocProgress (2240 + (strBlock cexDoc).length) cexDoc =
      .ok (totalSize cexDoc,
        [[65, 0], [176, 9, 0, 0], [65, 65, 65, 65, 0], [182, 9, 0, 0]], cexPtrs) := by
    rw [cexDoc_strBlock_len, cexDoc_totalSize]
    exact cexDoc_alloc
  have hout := compile_eq_of_alloc cexDoc cexDoc_len (by decide) (by decide)
    _ _ hap (by decide) (by decide) cexDoc_sz
  rw [hout, List.append_assoc]
  unfold cexOut
  rfl

lemma cexOut_len : cexOut.length = 2495 := by
  unfold cexOut
  rw [List.length_append, records_flatten_length, List.length_append,
    cexDoc_strBlock_len]
  rfl

lemma cexOut_drop2480 : cexOut.drop 2480 = cexBody := by
  have h1 := DATA_drop_body cexDoc cexPtrs cexBody 240 cexDoc_strBlock_len.ge
  rw [List.drop_eq_nil_iff.mpr cexDoc_strBlock_len.le, List.nil_append] at h1
  show cexOut.drop 2480 = cexBody
  unfold cexOut
  nth_rewrite 1 [show (2480 : Nat) = 2240 + 240 from rfl]
  exact h1

lemma cexOut_readU32_2482 : readU32 cexOut 2482 = 2480 := by
  apply readU32_of_u32le cexOut 2482 2480 [65, 65, 65, 65, 0, 182, 9, 0, 0]
  · nth_rewrite 1 [show (2482 : Nat) = 2480 + 2 from by norm_num]
    rw [← List.drop_drop, cexOut_drop2480]
    decide
  · omega

lemma cexOut_readU32_2486 : readU32 cexOut 2486 = 1094795585 := by
  apply readU32_of_u32le cexOut 2486 1094795585 [0, 182, 9, 0, 0]
  · nth_rewrite 1 [show (2486 : Nat) = 2480 + 6 from by norm_num]
    rw [← List.drop_drop, cexOut_drop2480]
    decide
  · omega

lemma cexOut_name2480 : read_cstring_sjis cexOut 2480 = ['A'] := by
  apply read_cstring_at_chunk cexOut 2480 ['A'] [176, 9, 0, 0, 65, 65, 65, 65, 0, 182, 9, 0, 0]
  · rw [cexOut_drop2480]
    decide
  · omega
  · decide

set_option maxRecDepth 40000 in
lemma cexOut_prog0 : parseProgress cexOut
    ((List.range ENTRY_COUNT).map (readHeader cexOut)) 0 = [['A'], []] := by
  have hrh0 : readHeader cexOut 0 =
      { idx := 0
        counter := (cexDoc.getD 0 qDefault).counter % 256
        reserved := pad11 (cexDoc.getD 0 qDefault).reserved
        name_ptr := npSpec cexDoc 0
        client_ptr := cpSpec cexDoc 0
        description_ptr := dpSpec cexDoc 0
        progress_ptr := 2482 } :=
    readHeader_DATA cexDoc cexPtrs (strBlock cexDoc ++ cexBody) 0 (by omega)
      (npSpec_lt cexDoc 0 (by rw [cexDoc_len]; omega) cexDoc_sz)
      (cpSpec_lt cexDoc 0 (by rw [cexDoc_len]; omega) cexDoc_sz)
      (dpSpec_lt cexDoc 0 (by rw [cexDoc_len]; omega) cexDoc_sz)
      (by decide)
  have hrh1 : readHeader cexOut 1 =
      { idx := 1
        counter := (cexDoc.getD 1 qDefault).counter % 256
        reserved := pad11 (cexDoc.getD 1 qDefault).reserved
        name_ptr := npSpec cexDoc 1
        client_ptr := cpSpec cexDoc 1
        description_ptr := dpSpec cexDoc 1
        progress_ptr := 2491 } :=
    readHeader_DATA cexDoc cexPtrs (strBlock cexDoc ++ cexBody) 1 (by omega)
      (npSpec_lt cexDoc 1 (by rw [cexDoc_len]; omega) cexDoc_sz)
      (cpSpec_lt cexDoc 1 (by rw [cexDoc_len]; omega) cexDoc_sz)
      (dpSpec_lt cexDoc 1 (by rw [cexDoc_len]; omega) cexDoc_sz)
      (by decide)
  unfold parseProgress
  rw [getD_range_map _ ENTRY_COUNT 0 default (by unfold ENTRY_COUNT; omega), hrh0]
  dsimp only
  rw [if_neg (by omega : ¬ (2482 : Nat) = 0)]
  rw [if_pos (show (0 : Nat) < ENTRY_COUNT - 1 from by unfold ENTRY_COUNT; omega)]
  rw [getD_range_map _ ENTRY_COUNT (0 + 1) default (by unfold ENTRY_COUNT; omega)]
  rw [show (0 + 1 : Nat) = 1 from rfl, hrh1]
  dsimp only
  rw [cexOut_len]
  rw [if_pos (by omega : (2482 : Nat) < 2491 ∧ (2491 : Nat) ≤ 2495)]
  rw [show ((2491 - 2482 : Nat)) / 4 = 2 from by norm_num]
  have hfin := readProgressSlots_eq cexOut 2482 [['A'], []] ?hslots 2 0 rfl
  · exact hfin
  case hslots =>
    intro j hj
    have hj2 : j < 2 := by simpa using hj
    interval_cases j
    · refine ⟨by rw [cexOut_len]; omega, ?_⟩
      rw [show (2482 + 0 * 4 : Nat) = 2482 from by norm_num, cexOut_readU32_2482,
        cexOut_name2480]
      rfl
    · refine ⟨by rw [cexOut_len]; omega, ?_⟩
      rw [show (2482 + 1 * 4 : Nat) = 2486 from by norm_num, cexOut_readU32_2486]
      exact read_cstring_oob cexOut _ (Or.inr (by rw [cexOut_len]; omega))

set_option maxRecDepth 40000 in
/-- C1 counterexample: `cexDoc` is a valid 80-entry document whose text
fields are all transcoder-stable and whose total size fits in 32 bits,
yet decoding its encoding does not return it: entry 0's progress
sequence `[['A']]` comes back as `[['A'], []]`, because the decoder
infers entry 0's array extent from entry 1's progress pointer, which
lies past entry 1's progress strings. -/
theorem C1_counterexample :
    ValidDoc cexDoc ∧ docTextsStable cexDoc ∧ totalSize cexDoc ≤ 4294967296 ∧
    ∃ out es, compile_to_dt cexDoc = .ok out ∧ parse_dt_file out = .ok es ∧
      (cexDoc.getD 0 qDefault).progress = [['A']] ∧
      (es.getD 0 qDefault).progress = [['A'], []] ∧
      ¬ es.map stripPtrs = cexDoc.map stripPtrs := by
  refine ⟨by decide, by decide, cexDoc_sz, cexOut, _, cexOut_compile,
    parse_ok_of_le cexOut (by rw [cexOut_len]; omega), by decide, ?_, ?_⟩
  · rw [getD_range_map _ ENTRY_COUNT 0 qDefault (by unfold ENTRY_COUNT; omega)]
    dsimp only
    exact cexOut_prog0
  · intro heq
    have h0 := congrArg (fun l => (l.getD 0 qDefault).progress) heq
    dsimp only at h0
    rw [getD_map_of_lt stripPtrs _ 0 qDefault qDefault (by simp [ENTRY_COUNT]),
      getD_map_of_lt stripPtrs cexDoc 0 qDefault qDefault (by rw [cexDoc_len]; omega)] at h0
    rw [show ∀ e : QuestEntry, (stripPtrs e).progress = e.progress from fun e => rfl,
      show ∀ e : QuestEntry, (stripPtrs e).progress = e.progress from fun e => rfl] at h0
    rw [getD_range_map _ ENTRY_COUNT 0 qDefault (by unfold ENTRY_COUNT; omega)] at h0
    dsimp only at h0
    rw [cexOut_prog0, show (cexDoc.getD 0 qDefault).progress = [['A']] from by decide] at h0
    exact absurd h0 (by decide)

theorem C9_amended_header_only_witness :
    (List.replicate 2240 (0 : Nat)).length = 2240 ∧
    ∃ es, parse_dt_file (List.replicate 2240 0) = .ok es ∧ es.length = 80 ∧
      ∀ k, k < 80 → (es.getD k qDefault).name = [] ∧
        (es.getD k qDefault).client = [] ∧
        (es.getD k qDefault).description = [] ∧
        (es.getD k qDefault).progress = [] :=
  ⟨by rw [List.length_replicate],
    C9_amended_header_only (List.replicate 2240 0) (by rw [List.length_replicate])
      (by
        intro k hk p hp
        simp only [readHeader, readU32_replicate_zero] at hp
        left
        simpa using hp)⟩
